import Mathlib

/-!
# Verification of the RBP Time Parser pipeline

Shallow embedding of the temporal-expression resolution service (`src/server.js`
latest snapshot): the pattern preprocessor, the business-rule corrector, the
greeting classifier, the language detector, the model-fallback response handling
and the `/parse-fecha` request handler.

Modelling conventions:
* Calendar date-times are a `Fecha` record (year/month/day/hour/minute/second/ms).
  The service pins one IANA zone per request (default `Europe/Madrid`); every
  scenario in scope stays inside CET, so the zone is modelled as the fixed
  offset `+01:00` and instants in a request compare by their local fields.
* The luxon `DateTime` validity discipline is `DT`: `set` with an out-of-range
  unit yields `DT.invalido`, which formats as `"Invalid DateTime"`, has a `null`
  ISO form, and compares `false` against everything (NaN semantics).
* JavaScript regexes are implemented as character-level matchers with the same
  ordered-alternation and first-position search semantics.
* The external collaborators (chrono-node, the OpenAI client) are inputs of the
  handler: a `String → Option Fecha` stub for the base parser, a flag plus raw
  model response for the fallback.
-/

namespace RBP

/-! ## Characters and strings -/

def esEspacio (c : Char) : Bool :=
  c = ' ' || c = '\t' || c = '\n' || c = '\r'

/-- JavaScript `toLowerCase` restricted to the alphabet the service uses
(ASCII plus the accented Spanish/Catalan letters appearing in its data). -/
def minusculaChar (c : Char) : Char :=
  if 'A' ≤ c ∧ c ≤ 'Z' then Char.ofNat (c.toNat + 32)
  else if c = 'Á' then 'á'
  else if c = 'É' then 'é'
  else if c = 'Í' then 'í'
  else if c = 'Ó' then 'ó'
  else if c = 'Ú' then 'ú'
  else if c = 'Ü' then 'ü'
  else if c = 'Ñ' then 'ñ'
  else if c = 'À' then 'à'
  else if c = 'È' then 'è'
  else if c = 'Ì' then 'ì'
  else if c = 'Ò' then 'ò'
  else if c = 'Ù' then 'ù'
  else if c = 'Ç' then 'ç'
  else c

def jsToLower (s : String) : String :=
  String.mk (s.data.map minusculaChar)

def recortaLista (l : List Char) : List Char :=
  ((l.dropWhile esEspacio).reverse.dropWhile esEspacio).reverse

/-- JavaScript `trim`. -/
def recortar (s : String) : String :=
  String.mk (recortaLista s.data)

/-- JavaScript `expresion.toLowerCase().trim()`. -/
def normalizar (s : String) : String :=
  recortar (jsToLower s)

/-- JavaScript `replace(/['"]/g, '')`. -/
def quitarComillas (s : String) : String :=
  String.mk (s.data.filter (fun c => ¬ (c = '\'' ∨ c = '"')))

def esInfijo (pat : List Char) : List Char → Bool
  | [] => List.isPrefixOf pat []
  | c :: resto => List.isPrefixOf pat (c :: resto) || esInfijo pat resto

/-- JavaScript `s.includes(sub)`. -/
def contiene (s sub : String) : Bool :=
  esInfijo sub.data s.data

/-! ## Calendar model -/

structure Fecha where
  year : Nat
  month : Nat
  day : Nat
  hour : Nat
  minute : Nat
  second : Nat
  ms : Nat
deriving DecidableEq

def bisiesto (y : Nat) : Bool :=
  y % 4 = 0 && (y % 100 ≠ 0 || y % 400 = 0)

def diasEnMes (y m : Nat) : Nat :=
  if m = 2 then (if bisiesto y then 29 else 28)
  else if m = 4 ∨ m = 6 ∨ m = 9 ∨ m = 11 then 30
  else 31

/-- Field ranges that make a `Fecha` a genuine calendar instant (year bounded
to four digits, matching the emitted `yyyy` format). -/
def fechaValida (f : Fecha) : Bool :=
  1 ≤ f.year && f.year ≤ 9999 && 1 ≤ f.month && f.month ≤ 12 &&
  1 ≤ f.day && f.day ≤ diasEnMes f.year f.month &&
  f.hour ≤ 23 && f.minute ≤ 59 && f.second ≤ 59 && f.ms ≤ 999

/-- Same as `fechaValida` without the upper year bound; enough for ordering. -/
def CamposOk (f : Fecha) : Prop :=
  1 ≤ f.year ∧ 1 ≤ f.month ∧ f.month ≤ 12 ∧
  1 ≤ f.day ∧ f.day ≤ diasEnMes f.year f.month ∧
  f.hour ≤ 23 ∧ f.minute ≤ 59 ∧ f.second ≤ 59 ∧ f.ms ≤ 999

instance (f : Fecha) : Decidable (CamposOk f) := by
  unfold CamposOk; infer_instance

/-- Mixed-radix key; for in-range fields (same zone offset) it orders local
date-times exactly as luxon orders the underlying instants. -/
def claveDia (f : Fecha) : Nat :=
  (f.year * 16 + f.month) * 32 + f.day

def clave (f : Fecha) : Nat :=
  (((claveDia f * 32 + f.hour) * 64 + f.minute) * 64 + f.second) * 1024 + f.ms

/-- Next calendar day, carrying over month and year. -/
def sucDia (f : Fecha) : Fecha :=
  if f.day < diasEnMes f.year f.month then { f with day := f.day + 1 }
  else if f.month < 12 then { f with month := f.month + 1, day := 1 }
  else { f with year := f.year + 1, month := 1, day := 1 }

/-- luxon `plus({ days: n })`. -/
def plusDias : Fecha → Nat → Fecha
  | f, 0 => f
  | f, n + 1 => sucDia (plusDias f n)

def ajusteMes : List Nat := [0, 3, 2, 5, 0, 3, 5, 1, 4, 6, 2, 4]

/-- ISO weekday (1 = Monday … 7 = Sunday), Sakamoto's method. -/
def diaSemanaDe (y m d : Nat) : Nat :=
  let ya := if m < 3 then y - 1 else y
  let t := (ajusteMes.get? (m - 1)).getD 0
  let w := (ya + ya / 4 - ya / 100 + ya / 400 + t + d) % 7
  if w = 0 then 7 else w

def diaSemanaF (f : Fecha) : Nat :=
  diaSemanaDe f.year f.month f.day

/-! ## luxon `DateTime` with validity -/

inductive DT where
  | invalido
  | valido (f : Fecha)
deriving DecidableEq

/-- luxon `<` on DateTimes (via epoch value; `NaN` comparisons are false). -/
def ltDT : DT → DT → Bool
  | .valido f, .valido g => decide (clave f < clave g)
  | _, _ => false

/-- luxon `>=` on DateTimes (`NaN` comparisons are false). -/
def geDT : DT → DT → Bool
  | .valido f, .valido g => decide (clave g ≤ clave f)
  | _, _ => false

/-- luxon `set({ hour, minute, second, millisecond })`: out-of-range units
produce an invalid DateTime. -/
def estableceHMS (f : Fecha) (h mi s ms : Nat) : DT :=
  if h ≤ 23 ∧ mi ≤ 59 ∧ s ≤ 59 ∧ ms ≤ 999 then
    .valido { f with hour := h, minute := mi, second := s, ms := ms }
  else .invalido

/-! ## Formatting and ISO parsing -/

def pad2 (n : Nat) : List Char := [Nat.digitChar (n / 10 % 10), Nat.digitChar (n % 10)]

def pad3 (n : Nat) : List Char :=
  [Nat.digitChar (n / 100 % 10), Nat.digitChar (n / 10 % 10), Nat.digitChar (n % 10)]

def pad4 (n : Nat) : List Char :=
  [Nat.digitChar (n / 1000 % 10), Nat.digitChar (n / 100 % 10),
   Nat.digitChar (n / 10 % 10), Nat.digitChar (n % 10)]

/-- luxon `toFormat("yyyy-MM-dd")` on a valid DateTime. -/
def formatoFecha (f : Fecha) : String :=
  String.mk (pad4 f.year ++ '-' :: pad2 f.month ++ '-' :: pad2 f.day)

/-- luxon `toFormat("HH:mm")` on a valid DateTime. -/
def formatoHora (f : Fecha) : String :=
  String.mk (pad2 f.hour ++ ':' :: pad2 f.minute)

/-- luxon `toISO()` on a valid DateTime in the fixed `+01:00` zone. -/
def isoFecha (f : Fecha) : String :=
  String.mk (pad4 f.year ++ '-' :: pad2 f.month ++ '-' :: pad2 f.day ++
    'T' :: pad2 f.hour ++ ':' :: pad2 f.minute ++ ':' :: pad2 f.second ++
    '.' :: pad3 f.ms ++ "+01:00".data)

def formatoFechaDT : DT → String
  | .invalido => "Invalid DateTime"
  | .valido f => formatoFecha f

def formatoHoraDT : DT → String
  | .invalido => "Invalid DateTime"
  | .valido f => formatoHora f

/-- luxon `toISO()`: `null` (`none`) on an invalid DateTime. -/
def isoDT : DT → Option String
  | .invalido => none
  | .valido f => some (isoFecha f)

def leeDigito (c : Char) : Option Nat :=
  if c.isDigit then some (c.toNat - 48) else none

def lee2 : List Char → Option (Nat × List Char)
  | c1 :: c2 :: r => do
    let a ← leeDigito c1
    let b ← leeDigito c2
    pure (a * 10 + b, r)
  | _ => none

def lee3 : List Char → Option (Nat × List Char)
  | c1 :: c2 :: c3 :: r => do
    let a ← leeDigito c1
    let b ← leeDigito c2
    let c ← leeDigito c3
    pure ((a * 10 + b) * 10 + c, r)
  | _ => none

def lee4 : List Char → Option (Nat × List Char)
  | c1 :: c2 :: c3 :: c4 :: r => do
    let a ← leeDigito c1
    let b ← leeDigito c2
    let c ← leeDigito c3
    let d ← leeDigito c4
    pure (((a * 10 + b) * 10 + c) * 10 + d, r)
  | _ => none

def espera (c : Char) : List Char → Option (List Char)
  | x :: r => if x = c then some r else none
  | [] => none

def leeMsFinal : List Char → Option Nat
  | '.' :: r => do
    let (ms, r2) ← lee3 r
    if r2 = "+01:00".data ∨ r2 = [] then pure ms else none
  | r => if r = "+01:00".data ∨ r = [] then pure 0 else none

def analizaISO (l : List Char) : Option Fecha := do
  let (y, r) ← lee4 l
  let r ← espera '-' r
  let (mo, r) ← lee2 r
  let r ← espera '-' r
  let (d, r) ← lee2 r
  let r ← espera 'T' r
  let (h, r) ← lee2 r
  let r ← espera ':' r
  let (mi, r) ← lee2 r
  let r ← espera ':' r
  let (se, r) ← lee2 r
  let ms ← leeMsFinal r
  pure ⟨y, mo, d, h, mi, se, ms⟩

/-- luxon `DateTime.fromISO(s, { zone })`, restricted to the ISO profile the
service reads and writes (`yyyy-MM-ddTHH:mm:ss[.SSS][+01:00]`); anything else,
or out-of-range calendar fields, yields the invalid DateTime. -/
def fromISO (s : String) : DT :=
  match analizaISO s.data with
  | some f => if fechaValida f then .valido f else .invalido
  | none => .invalido

/-! ## Regex matchers

Each JavaScript regex of the source becomes a matcher at a fixed start
position (`...At`), lifted by `busca`, which like `String.prototype.match`
returns the match at the earliest start position. Alternations are tried in
the source order of the regex. -/

def busca {α : Type} (p : List Char → Option α) : List Char → Option α
  | [] => p []
  | c :: resto =>
    match p (c :: resto) with
    | some a => some a
    | none => busca p resto

/-- Consume an exact literal. -/
def despuesDe (pat : String) (l : List Char) : Option (List Char) :=
  if List.isPrefixOf pat.data l then some (l.drop pat.data.length) else none

def saltaEspacios (l : List Char) : List Char := l.dropWhile esEspacio

/-- Whitespace run `\s+`. -/
def ws1 : List Char → Option (List Char)
  | [] => none
  | c :: r => if esEspacio c then some (saltaEspacios r) else none

/-- Digit run `(\d+)` (greedy), returning its numeric value as `parseInt` would. -/
def digitos1 (l : List Char) : Option (Nat × List Char) :=
  let ds := l.takeWhile Char.isDigit
  let r := l.dropWhile Char.isDigit
  if ds = [] then none
  else some (ds.foldl (fun a c => a * 10 + (c.toNat - 48)) 0, r)

/-- First alternative of `alts` that matches here, with what it matched. -/
def tryAlt : List String → List Char → Option (String × List Char)
  | [], _ => none
  | a :: resto, l =>
    match despuesDe a l with
    | some r => some (a, r)
    | none => tryAlt resto l

def tryLit (alts : List String) (l : List Char) : Option (List Char) :=
  (tryAlt alts l).map (·.2)

/-- JavaScript `\w` (ASCII word character), for `\b`. -/
def esCaracterPalabra (c : Char) : Bool :=
  ('a' ≤ c && c ≤ 'z') || ('A' ≤ c && c ≤ 'Z') || c.isDigit || c = '_'

/-- Regex `/pasado\s+mañana\s+a\s+las\s+(\d+)/i` at one position. -/
def pMananaHoraAt (l : List Char) : Option Nat := do
  let r ← despuesDe "pasado" l
  let r ← ws1 r
  let r ← despuesDe "mañana" r
  let r ← ws1 r
  let r ← despuesDe "a" r
  let r ← ws1 r
  let r ← despuesDe "las" r
  let r ← ws1 r
  let (n, _) ← digitos1 r
  pure n

/-- Regex `/demà\s+passat\s+a\s+les\s+(\d+)/i` at one position. -/
def pDemaHoraAt (l : List Char) : Option Nat := do
  let r ← despuesDe "demà" l
  let r ← ws1 r
  let r ← despuesDe "passat" r
  let r ← ws1 r
  let r ← despuesDe "a" r
  let r ← ws1 r
  let r ← despuesDe "les" r
  let r ← ws1 r
  let (n, _) ← digitos1 r
  pure n

/-- The 16-name weekday alternation of the preprocessor regexes. -/
def diasRegex : List String :=
  ["lunes", "martes", "miércoles", "miercoles", "jueves", "viernes",
   "sábado", "sabado", "domingo",
   "dilluns", "dimarts", "dimecres", "dijous", "divendres", "dissabte", "diumenge"]

/-- The `diasSemana` lookup table (1 = Monday … 7 = Sunday). -/
def diasSemana : List (String × Nat) :=
  [("lunes", 1), ("martes", 2), ("miércoles", 3), ("miercoles", 3), ("jueves", 4),
   ("viernes", 5), ("sábado", 6), ("sabado", 6), ("domingo", 7),
   ("dilluns", 1), ("dimarts", 2), ("dimecres", 3), ("dijous", 4),
   ("divendres", 5), ("dissabte", 6), ("diumenge", 7)]

/-- Tail `(?:semana|setmana)\s+(?:que\s+(?:viene|ve)|próxima|proxima|pròxima|vinent|propera|siguiente|següent)`. -/
def colaSemana (l : List Char) : Option Unit := do
  let r ← tryLit ["semana", "setmana"] l
  let r ← ws1 r
  match (do
      let r2 ← despuesDe "que" r
      let r2 ← ws1 r2
      let _ ← tryLit ["viene", "ve"] r2
      pure ()) with
  | some _ => pure ()
  | none =>
    let _ ← tryLit ["próxima", "proxima", "pròxima", "vinent", "propera",
                    "siguiente", "següent"] r
    pure ()

def cuerpoSemana1 (l : List Char) : Option String := do
  let (nombre, r) ← tryAlt diasRegex l
  let r ← ws1 r
  match (do
      let r2 ← despuesDe "de" r
      let r2 ← ws1 r2
      let r2 ← despuesDe "la" r2
      let r2 ← ws1 r2
      colaSemana r2) with
  | some _ => pure nombre
  | none => do
    let _ ← colaSemana r
    pure nombre

/-- Optional leading `(?:el\s+)?` with backtracking, around a capturing body. -/
def conArticuloEl (cuerpo : List Char → Option String) (l : List Char) : Option String :=
  match (do
      let r ← despuesDe "el" l
      let r ← ws1 r
      cuerpo r) with
  | some n => some n
  | none => cuerpo l

/-- First "weekday of next week" regex at one position. -/
def pSemana1At (l : List Char) : Option String :=
  conArticuloEl cuerpoSemana1 l

def cuerpoSemana2 (l : List Char) : Option String := do
  let (nombre, r) ← tryAlt diasRegex l
  let r ← ws1 r
  let r ← tryLit ["próxima", "proxima", "pròxima", "vinent", "propera",
                  "siguiente", "següent"] r
  let r ← ws1 r
  let _ ← tryLit ["semana", "setmana"] r
  pure nombre

/-- Second "weekday next week" regex at one position. -/
def pSemana2At (l : List Char) : Option String :=
  conArticuloEl cuerpoSemana2 l

def cuerpoQueViene (l : List Char) : Option String := do
  let (nombre, r) ← tryAlt diasRegex l
  let r ← ws1 r
  let r ← despuesDe "que" r
  let r ← ws1 r
  let _ ← tryLit ["viene", "ve"] r
  pure nombre

/-- Regex `/(?:el\s+)?(weekday)\s+que\s+(viene|ve)/i` at one position. -/
def pQueVieneAt (l : List Char) : Option String :=
  conArticuloEl cuerpoQueViene l

/-- Regex `/(?:en|dentro de|dins de)\s+(\d+)\s+d[ií]as?/i` at one position. -/
def pConteoAt (l : List Char) : Option Unit := do
  let r ← tryLit ["en", "dentro de", "dins de"] l
  let r ← ws1 r
  let (_, r) ← digitos1 r
  let r ← ws1 r
  let r ← despuesDe "d" r
  match despuesDe "ia" r with
  | some _ => pure ()
  | none =>
    let _ ← despuesDe "ía" r
    pure ()

/-- Regex `/par\s+de\s+d[ií]as?/i` at one position. -/
def pParDeAt (l : List Char) : Option Unit := do
  let r ← despuesDe "par" l
  let r ← ws1 r
  let r ← despuesDe "de" r
  let r ← ws1 r
  let r ← despuesDe "d" r
  match despuesDe "ia" r with
  | some _ => pure ()
  | none =>
    let _ ← despuesDe "ía" r
    pure ()

/-- The 14-name weekday alternation of the corrector's weekday regex
(accented spellings only, as in the source). -/
def diasRegexEspecifico : List String :=
  ["lunes", "martes", "miércoles", "jueves", "viernes", "sábado", "domingo",
   "dilluns", "dimarts", "dimecres", "dijous", "divendres", "dissabte", "diumenge"]

def trasArticulo (art : String) (l : List Char) : Option String := do
  let r ← despuesDe art l
  let r ← ws1 r
  let (nombre, _) ← tryAlt diasRegexEspecifico r
  pure nombre

/-- Regex `/(?:el|la|els|les)\s+(weekday)/i` at one position (alternation with
backtracking across the articles). -/
def pDiaEspecificoAt (l : List Char) : Option String :=
  match trasArticulo "el" l with
  | some n => some n
  | none =>
    match trasArticulo "la" l with
    | some n => some n
    | none =>
      match trasArticulo "els" l with
      | some n => some n
      | none => trasArticulo "les" l

/-- Regex `/a\s+(las?|les?)\s+7\b/i` at one position, with backtracking through
the article alternatives. -/
def pHora7At (l : List Char) : Option Unit := do
  let r ← despuesDe "a" l
  let r ← ws1 r
  let sieben := fun (r2 : List Char) => do
    let r3 ← ws1 r2
    let r4 ← despuesDe "7" r3
    match r4 with
    | [] => some ()
    | c :: _ => if esCaracterPalabra c then none else some ()
  match despuesDe "las" r >>= sieben with
  | some _ => pure ()
  | none =>
    match despuesDe "la" r >>= sieben with
    | some _ => pure ()
    | none =>
      match despuesDe "les" r >>= sieben with
      | some _ => pure ()
      | none =>
        let _ ← despuesDe "le" r >>= sieben
        pure ()

/-- Regex `/7\s*(am|a\.m\.|de la mañana)/i` at one position. -/
def pAm7At (l : List Char) : Option Unit := do
  let r ← despuesDe "7" l
  let _ ← tryLit ["am", "a.m.", "de la mañana"] (saltaEspacios r)
  pure ()

/-- Regex `/\d+\s*(h|horas?|hrs?|m|minutos?)/i` at one position. -/
def pHoraTokenAt (l : List Char) : Option Unit := do
  let (_, r) ← digitos1 l
  let _ ← tryLit ["h", "horas", "hora", "hrs", "hr", "m", "minutos", "minuto"]
    (saltaEspacios r)
  pure ()

/-! ## PatternPreprocessor (`preprocesarExpresion`) -/

def matchPasadoMananaHora (expresion : String) : Option Nat :=
  busca pMananaHoraAt (jsToLower expresion).data

def matchDemaPassatHora (expresion : String) : Option Nat :=
  busca pDemaHoraAt (jsToLower expresion).data

def matchSemanaQueViene1 (normalizada : String) : Option String :=
  busca pSemana1At normalizada.data

def matchSemanaQueViene2 (normalizada : String) : Option String :=
  busca pSemana2At normalizada.data

/-- Disjunction `matchSemanaQueViene1 || matchSemanaQueViene2` of the source. -/
def matchSemanaQueViene (normalizada : String) : Option String :=
  match matchSemanaQueViene1 normalizada with
  | some n => some n
  | none => matchSemanaQueViene2 normalizada

def matchQueViene (normalizada : String) : Option String :=
  busca pQueVieneAt normalizada.data

/-- Rule 3 resolver: weekday of the week after the current one. -/
def resolverSemanaQueViene (refF : Fecha) (diaObjetivo : Nat) : DT :=
  let hoyDiaSemana := diaSemanaF refF
  let diasHastaLunesProxima :=
    if (8 - hoyDiaSemana) % 7 = 0 then 7 else (8 - hoyDiaSemana) % 7
  let diasDesdeLunes := (diaObjetivo - 1) % 7
  estableceHMS (plusDias refF (diasHastaLunesProxima + diasDesdeLunes)) 14 0 0 0

/-- Rule 4 resolver: nearest future weekday, Friday weekend skip. -/
def resolverQueViene (refF : Fecha) (diaObjetivo : Nat) : DT :=
  let hoyDiaSemana := diaSemanaF refF
  let d0 : Int := (diaObjetivo : Int) - (hoyDiaSemana : Int)
  let d1 : Int := if d0 ≤ 0 then d0 + 7 else d0
  let d2 : Int := if hoyDiaSemana = 5 ∧ d1 ≤ 2 then 3 else d1
  estableceHMS (plusDias refF d2.toNat) 14 0 0 0

/-- Source `preprocesarExpresion(expresion, fechaReferencia)`: the ordered
special-case rules, `none` meaning "let chrono handle it". -/
def preprocesarExpresion (expresion : String) (refF : Fecha) : Option DT :=
  let normalizada := normalizar expresion
  match matchPasadoMananaHora expresion with
  | some horaNum => some (estableceHMS (plusDias refF 2) horaNum 0 0 0)
  | none =>
  match matchDemaPassatHora expresion with
  | some horaNum => some (estableceHMS (plusDias refF 2) horaNum 0 0 0)
  | none =>
  if contiene normalizada "pasado mañana" || contiene normalizada "demà passat" then
    some (.valido (plusDias refF 2))
  else
    let porSemana : Option DT :=
      match matchSemanaQueViene normalizada with
      | some nombre =>
        ((diasSemana.lookup (jsToLower nombre)).map (resolverSemanaQueViene refF))
      | none => none
    match porSemana with
    | some r => some r
    | none =>
      match matchQueViene normalizada with
      | some nombre =>
        ((diasSemana.lookup (jsToLower nombre)).map (resolverQueViene refF))
      | none => none

/-! ## RuleCorrector (`validarYCorregirFecha`) -/

def esConteoDias (normalizada : String) : Bool :=
  (busca pConteoAt normalizada.data).isSome ||
  contiene normalizada "pasado mañana" ||
  contiene normalizada "demà passat" ||
  (busca pParDeAt normalizada.data).isSome

def esDiaSemanaEspecifico (normalizada : String) : Bool :=
  (busca pDiaEspecificoAt normalizada.data).isSome

def matchHora7 (normalizada : String) : Bool :=
  (busca pHora7At normalizada.data).isSome

def tieneAm7 (normalizada : String) : Bool :=
  (busca pAm7At normalizada.data).isSome

def tieneTokenHora (normalizada : String) : Bool :=
  (busca pHoraTokenAt normalizada.data).isSome

/-- Past-date correction block: a past candidate for an "article + weekday"
expression that is not a day count jumps to the next occurrence of the
candidate's weekday, keeping its hour and minute. -/
def corregirPasada (fecha : DT) (refF : Fecha) (normalizada : String) : DT :=
  match fecha with
  | .invalido => .invalido
  | .valido f =>
    if clave f < clave refF ∧
       esDiaSemanaEspecifico normalizada = true ∧ esConteoDias normalizada = false then
      let diaSemana := diaSemanaF f
      let hoyDiaSemana := diaSemanaF refF
      let d0 : Int := (diaSemana : Int) - (hoyDiaSemana : Int)
      let d1 : Int := if d0 ≤ 0 then d0 + 7 else d0
      estableceHMS (plusDias refF d1.toNat) f.hour f.minute 0 0
    else fecha

/-- Default-hour block: an untimed midnight candidate moves to 12:00. -/
def aplicarHoraDefecto (fecha : DT) (normalizada : String) : DT :=
  match fecha with
  | .invalido => .invalido
  | .valido f =>
    if f.hour = 0 ∧ f.minute = 0 ∧ tieneTokenHora normalizada = false then
      .valido { f with hour := 12, minute := 0 }
    else fecha

/-- Ambiguous-hour block: bare "a las 7" with a 7-o'clock candidate means 19:00. -/
def aplicarHora7 (fecha : DT) (normalizada : String) : DT :=
  match fecha with
  | .invalido => .invalido
  | .valido f =>
    if matchHora7 normalizada = true ∧ f.hour = 7 ∧ tieneAm7 normalizada = false then
      .valido { f with hour := 19 }
    else fecha

/-- Source `validarYCorregirFecha(fecha, fechaReferencia, expresion)`. -/
def validarYCorregirFecha (fecha : DT) (refF : Fecha) (expresion : String) : DT :=
  let normalizada := jsToLower expresion
  aplicarHora7 (aplicarHoraDefecto (corregirPasada fecha refF normalizada) normalizada)
    normalizada

/-! ## Classifier (`esExpresionTemporalClara`) and language detection -/

def palabrasTemporales : List String :=
  ["hoy", "mañana", "pasado", "ayer", "avui", "demà", "ahir",
   "lunes", "martes", "miércoles", "jueves", "viernes", "sábado", "sabado", "domingo",
   "dilluns", "dimarts", "dimecres", "dijous", "divendres", "dissabte", "diumenge",
   "semana", "mes", "año", "setmana", "any",
   "día", "dias", "dia", "dies",
   "hora", "horas", "hora", "hores",
   "minuto", "minutos", "minut", "minuts",
   "que viene", "que ve", "próximo", "proximo", "pròxim",
   "dentro de", "dins de", "en", "a las", "a les", "las", "les",
   "par de", "parell de", "cuando", "quan"]

def soloSaludos : List String :=
  ["hola", "buenos días", "buenos dias", "buenas tardes", "buenas noches",
   "bon dia", "bona tarda", "bona nit", "adeu", "adios", "hasta luego",
   "gracias", "gràcies", "de nada", "per favor", "por favor", "si", "no",
   "ok", "vale", "perfecto", "perfecte"]

def tieneTemporalEn (normalizada : String) : Bool :=
  palabrasTemporales.any (fun palabra => contiene normalizada palabra)

def esSoloSaludoEn (normalizada : String) : Bool :=
  soloSaludos.any (fun saludo =>
    let saludoLower := jsToLower saludo
    normalizada = saludoLower ||
    normalizada = saludoLower ++ "." ||
    normalizada = saludoLower ++ "!" ||
    normalizada = saludoLower ++ "?")

def esExpresionTemporalClara (expresion : String) : Bool :=
  let normalizada := normalizar expresion
  if tieneTemporalEn normalizada then true
  else if esSoloSaludoEn normalizada then false
  else true

def palabrasCatalanas : List String :=
  ["demà", "avui", "ahir", "setmana", "mes", "any",
   "dilluns", "dimarts", "dimecres", "dijous", "divendres", "dissabte", "diumenge",
   "gener", "febrer", "març", "abril", "maig", "juny", "juliol",
   "agost", "setembre", "octubre", "novembre", "desembre"]

def detectarIdioma (expresion : String) : String :=
  let normalizada := jsToLower expresion
  if palabrasCatalanas.any (fun palabra => contiene normalizada palabra) then "ca"
  else "es"

/-! ## Catalan manual translation table (case-insensitive global replace) -/

def prefijoCI (pat l : List Char) : Bool :=
  List.isPrefixOf pat ((l.take pat.length).map minusculaChar)

def reemplazaAux (pat rep : List Char) : Nat → List Char → List Char
  | 0, l => l
  | _ + 1, [] => []
  | fuel + 1, c :: resto =>
    if pat ≠ [] && prefijoCI pat (c :: resto) then
      rep ++ reemplazaAux pat rep fuel (resto.drop (pat.length - 1))
    else c :: reemplazaAux pat rep fuel resto

/-- JavaScript `replace(new RegExp(pat, 'gi'), rep)` for a literal `pat`. -/
def reemplaza (pat rep l : List Char) : List Char :=
  reemplazaAux pat rep l.length l

def traducciones : List (String × String) :=
  [("dilluns", "lunes"), ("dimarts", "martes"), ("dimecres", "miércoles"),
   ("dijous", "jueves"), ("divendres", "viernes"), ("dissabte", "sábado"),
   ("diumenge", "domingo"), ("avui", "hoy"), ("demà", "mañana"), ("ahir", "ayer"),
   ("setmana", "semana"), ("mes", "mes"), ("any", "año")]

def traducirManual (e : String) : String :=
  traducciones.foldl
    (fun acc par => String.mk (reemplaza par.1.data par.2.data acc.data)) e

/-! ## FallbackResolver response handling (`parsearConOpenAI`) -/

/-- What came back from the model call: a transport error/exception, or a
completion whose `content` may be absent. -/
inductive RespuestaModelo where
  | fallo
  | contenido (c : Option String)
deriving DecidableEq

inductive ResFallback where
  | noDisponible
  | sinDefinir
  | fechaModelo (f : Fecha)
deriving DecidableEq

/-- Source `parsearConOpenAI`: `null` when the client is not configured or on any
error; the sentinel on a missing/empty/`sin_definir` reply; otherwise the
quote-stripped reply parsed as a zoned ISO date-time, `null` if invalid. -/
def parsearConOpenAIM (configurado : Bool) (respuesta : RespuestaModelo) : ResFallback :=
  if configurado = false then .noDisponible
  else
    match respuesta with
    | .fallo => .noDisponible
    | .contenido none => .sinDefinir
    | .contenido (some c) =>
      let fechaISO := recortar c
      if fechaISO = "" then .sinDefinir
      else if jsToLower fechaISO = "sin_definir" then .sinDefinir
      else
        let fechaLimpia := recortar (quitarComillas fechaISO)
        match fromISO fechaLimpia with
        | .valido f => .fechaModelo f
        | .invalido => .noDisponible

/-! ## ResultAssembler and the `/parse-fecha` handler -/

structure Respuesta where
  fecha_resuelta : String
  dia_semana : String
  hora : String
  iso_datetime : Option String
  es_finde : Bool
  es_pasado : Bool
deriving DecidableEq

inductive RespuestaHTTP where
  | malaPeticion (mensaje : String)
  | okError (mensaje : String)
  | okRespuesta (r : Respuesta)
  | errorInterno (mensaje : String)
deriving DecidableEq

def respuestaSinDefinir : Respuesta :=
  { fecha_resuelta := "sin_definir", dia_semana := "sin_definir",
    hora := "sin_definir", iso_datetime := some "sin_definir",
    es_finde := false, es_pasado := false }

def nombresDiasEs : List String :=
  ["lunes", "martes", "miércoles", "jueves", "viernes", "sábado", "domingo"]

def nombresDiasCa : List String :=
  ["dilluns", "dimarts", "dimecres", "dijous", "divendres", "dissabte", "diumenge"]

/-- luxon `setLocale(locale).toFormat("cccc")`. -/
def formatoDiaSemana (locale : String) : DT → String
  | .invalido => "Invalid DateTime"
  | .valido f =>
    (((if locale = "ca" then nombresDiasCa else nombresDiasEs).get?
        (diaSemanaF f - 1))).getD ""

/-- The response-building tail of the handler. -/
def ensamblarRespuesta (fecha : DT) (refF : Fecha) (expresion : String) : Respuesta :=
  let idioma := detectarIdioma expresion
  let locale := if idioma = "ca" then "ca" else "es"
  let dia_semana := formatoDiaSemana locale fecha
  let diasFinde :=
    if idioma = "ca" then ["dissabte", "diumenge", "sábado", "domingo"]
    else ["sábado", "domingo"]
  let es_finde := diasFinde.any (fun dia => contiene (jsToLower dia_semana) (jsToLower dia))
  let es_pasado := ltDT fecha (.valido refF)
  { fecha_resuelta := formatoFechaDT fecha, dia_semana := dia_semana,
    hora := formatoHoraDT fecha, iso_datetime := isoDT fecha,
    es_finde := es_finde, es_pasado := es_pasado }

/-- JavaScript falsiness of an optional request field. -/
def esFalsy : Option String → Bool
  | none => true
  | some s => s = ""

def valorDe (o : Option String) : String := o.getD ""

/-- The `/parse-fecha` request handler. External collaborators are inputs:
`chronoEs` is `chrono.es.parseDate` (already read into zone-local fields),
`openaiConfigurado` whether the model client exists, `traduccionModelo` what
the translation call would return, `respuestaModelo` what the date-fallback
call would return. -/
def parseFecha (referencia expresion_usuario : Option String)
    (chronoEs : String → Option Fecha) (openaiConfigurado : Bool)
    (traduccionModelo : Option String) (respuestaModelo : RespuestaModelo) :
    RespuestaHTTP :=
  if esFalsy referencia || esFalsy expresion_usuario then
    .malaPeticion "Faltan parámetros requeridos: referencia y expresion_usuario."
  else
    let expr := valorDe expresion_usuario
    if esExpresionTemporalClara expr = false then .okRespuesta respuestaSinDefinir
    else
      match fromISO (valorDe referencia) with
      | .invalido => .malaPeticion "Referencia inválida."
      | .valido refF =>
        match preprocesarExpresion expr refF with
        | some fecha => .okRespuesta (ensamblarRespuesta fecha refF expr)
        | none =>
          let idioma := detectarIdioma expr
          let parsed : Option Fecha :=
            if idioma = "ca" then
              match chronoEs expr with
              | some p => some p
              | none =>
                let expresionTraducida := traducirManual expr
                match (if expresionTraducida ≠ expr then chronoEs expresionTraducida
                       else none) with
                | some p => some p
                | none =>
                  if openaiConfigurado then
                    match traduccionModelo with
                    | some t => chronoEs t
                    | none => none
                  else none
            else chronoEs expr
          match parsed with
          | none =>
            match parsearConOpenAIM openaiConfigurado respuestaModelo with
            | .sinDefinir => .okRespuesta respuestaSinDefinir
            | .fechaModelo f => .okRespuesta (ensamblarRespuesta (.valido f) refF expr)
            | .noDisponible => .okError "No se pudo interpretar la fecha."
          | some p =>
            let fecha := validarYCorregirFecha (.valido p) refF expr
            let fecha :=
              if ltDT fecha (.valido refF) && openaiConfigurado then
                match parsearConOpenAIM openaiConfigurado respuestaModelo with
                | .sinDefinir => fecha
                | .fechaModelo g =>
                  if geDT (.valido g) (.valido refF) then .valido g else fecha
                | .noDisponible => fecha
              else fecha
            .okRespuesta (ensamblarRespuesta fecha refF expr)

/-- Stub for the external base parser in the C5 end-to-end scenario: what
chrono-node returns for "el viernes a las 7" against the Tuesday reference
(the next Friday at the written hour 7). -/
def chronoViernes7 : String → Option Fecha := fun s =>
  if s = "el viernes a las 7" then some ⟨2025, 11, 7, 7, 0, 0, 0⟩ else none

/-- Stub base parser for the amended C1's parser-path witness: for "el martes"
against a Thursday reference it returns the nearest (past) Tuesday at 16:30,
the kind of ambiguous past candidate the corrector exists to fix. -/
def chronoMartesPasado : String → Option Fecha := fun s =>
  if s = "el martes" then some ⟨2025, 11, 4, 16, 30, 0, 0⟩ else none

/-! ## Calendar ordering lemmas -/

theorem diasEnMes_pos (y m : Nat) : 1 ≤ diasEnMes y m := by
  unfold diasEnMes; split_ifs <;> norm_num

theorem diasEnMes_le (y m : Nat) : diasEnMes y m ≤ 31 := by
  unfold diasEnMes; split_ifs <;> norm_num

theorem camposOk_sucDia {f : Fecha} (h : CamposOk f) : CamposOk (sucDia f) := by
  obtain ⟨h1, h2, h3, h4, h5, h6, h7, h8, h9⟩ := h
  have p1 := diasEnMes_pos f.year (f.month + 1)
  have p2 := diasEnMes_pos (f.year + 1) 1
  unfold sucDia CamposOk
  split_ifs with hd hm <;> dsimp only <;>
    refine ⟨?_, ?_, ?_, ?_, ?_, ?_, ?_, ?_, ?_⟩ <;> omega

theorem claveDia_lt_sucDia {f : Fecha} (h : CamposOk f) :
    claveDia f < claveDia (sucDia f) := by
  obtain ⟨h1, h2, h3, h4, h5, h6, h7, h8, h9⟩ := h
  have hle := diasEnMes_le f.year f.month
  unfold sucDia
  split_ifs with hd hm <;> simp only [claveDia] <;> omega

theorem camposOk_plusDias {f : Fecha} (h : CamposOk f) (n : Nat) :
    CamposOk (plusDias f n) := by
  induction n with
  | zero => exact h
  | succ n ih => exact camposOk_sucDia ih

theorem claveDia_plusDias {f : Fecha} (h : CamposOk f) (n : Nat) :
    claveDia f + n ≤ claveDia (plusDias f n) := by
  induction n with
  | zero => simp [plusDias]
  | succ n ih =>
    have hlt := claveDia_lt_sucDia (camposOk_plusDias h n)
    show claveDia f + (n + 1) ≤ claveDia (sucDia (plusDias f n))
    omega

theorem clave_lt_of_claveDia_lt {a b : Fecha} (h : claveDia a < claveDia b)
    (ha : a.hour ≤ 23) (hm : a.minute ≤ 59) (hs : a.second ≤ 59) (hms : a.ms ≤ 999) :
    clave a < clave b := by
  unfold clave; omega

theorem mod7_sel (n : Nat) :
    1 ≤ (if n % 7 = 0 then 7 else n % 7) ∧ (if n % 7 = 0 then 7 else n % 7) ≤ 7 := by
  have := Nat.mod_lt n (show 0 < 7 by norm_num)
  split_ifs <;> omega

theorem diaSemanaF_en_rango (f : Fecha) : 1 ≤ diaSemanaF f ∧ diaSemanaF f ≤ 7 := by
  simp only [diaSemanaF, diaSemanaDe]
  exact mod7_sel _

/-! ## RuleCorrector lemmas -/

theorem salto_toNat_rango (dia hoy : Nat) (h1 : 1 ≤ dia) (h2 : dia ≤ 7)
    (h3 : 1 ≤ hoy) (h4 : hoy ≤ 7) :
    1 ≤ (if ((dia : Int) - (hoy : Int)) ≤ 0 then (dia : Int) - (hoy : Int) + 7
         else (dia : Int) - (hoy : Int)).toNat ∧
    (if ((dia : Int) - (hoy : Int)) ≤ 0 then (dia : Int) - (hoy : Int) + 7
     else (dia : Int) - (hoy : Int)).toNat ≤ 7 := by
  split_ifs <;> omega

/-- The Int-side "next occurrence" jump equals the `mod 7, 7 for 0` form. -/
theorem dias_salto_eq (dia hoy : Nat) (h1 : 1 ≤ dia) (h2 : dia ≤ 7)
    (h3 : 1 ≤ hoy) (h4 : hoy ≤ 7) :
    (if ((dia : Int) - (hoy : Int)) ≤ 0 then (dia : Int) - (hoy : Int) + 7
     else (dia : Int) - (hoy : Int)).toNat =
    (if (dia + 7 - hoy) % 7 = 0 then 7 else (dia + 7 - hoy) % 7) := by
  split_ifs <;> omega

theorem estableceHMS_plus_ge {refF f : Fecha} (hr : CamposOk refF) (k : Nat)
    (hk : 1 ≤ k) (h6 : f.hour ≤ 23) (h7 : f.minute ≤ 59) :
    ∃ g : Fecha, estableceHMS (plusDias refF k) f.hour f.minute 0 0 = .valido g ∧
      clave refF ≤ clave g ∧ CamposOk g := by
  have hdia := claveDia_plusDias hr k
  obtain ⟨p1, p2, p3, p4, p5, p6, p7, p8, p9⟩ := camposOk_plusDias hr k
  obtain ⟨r1, r2, r3, r4, r5, r6, r7, r8, r9⟩ := hr
  simp only [estableceHMS]
  rw [if_pos ⟨h6, h7, by norm_num, by norm_num⟩]
  refine ⟨{ (plusDias refF k) with hour := f.hour, minute := f.minute, second := 0, ms := 0 }, rfl, ?_, ?_⟩
  · refine le_of_lt (clave_lt_of_claveDia_lt ?_ r6 r7 r8 r9)
    show claveDia refF < claveDia (plusDias refF k)
    omega
  · exact ⟨p1, p2, p3, p4, p5, h6, h7, by norm_num, by norm_num⟩

theorem corregirPasada_spec {f refF : Fecha} {n : String}
    (hf : CamposOk f) (hr : CamposOk refF)
    (hd : esDiaSemanaEspecifico n = true) (hc : esConteoDias n = false) :
    ∃ g : Fecha, corregirPasada (.valido f) refF n = .valido g ∧
      clave refF ≤ clave g ∧ CamposOk g := by
  obtain ⟨f1, f2, f3, f4, f5, f6, f7, f8, f9⟩ := hf
  have hrf := diaSemanaF_en_rango f
  have hrr := diaSemanaF_en_rango refF
  simp only [corregirPasada]
  by_cases hlt : clave f < clave refF
  · rw [if_pos ⟨hlt, hd, hc⟩]
    exact estableceHMS_plus_ge hr _
      (salto_toNat_rango (diaSemanaF f) (diaSemanaF refF)
        hrf.1 hrf.2 hrr.1 hrr.2).1 f6 f7
  · rw [if_neg (fun h => hlt h.1)]
    exact ⟨f, rfl, by omega, ⟨f1, f2, f3, f4, f5, f6, f7, f8, f9⟩⟩

/-- Whatever the expression, the past-correction block keeps the candidate's
hour (and yields a valid DateTime from a valid candidate). -/
theorem corregirPasada_conserva_hora {f : Fecha} (refF : Fecha) (n : String)
    (h6 : f.hour ≤ 23) (h7 : f.minute ≤ 59) :
    ∃ g : Fecha, corregirPasada (.valido f) refF n = .valido g ∧ g.hour = f.hour := by
  simp only [corregirPasada]
  by_cases hcond : clave f < clave refF ∧
      esDiaSemanaEspecifico n = true ∧ esConteoDias n = false
  · rw [if_pos hcond]
    simp only [estableceHMS]
    rw [if_pos ⟨h6, h7, by norm_num, by norm_num⟩]
    exact ⟨_, rfl, rfl⟩
  · rw [if_neg hcond]
    exact ⟨f, rfl, rfl⟩

theorem aplicarHoraDefecto_ge {m : Fecha} (n : String) (h : CamposOk m) :
    ∃ g : Fecha, aplicarHoraDefecto (.valido m) n = .valido g ∧
      clave m ≤ clave g ∧ CamposOk g := by
  obtain ⟨p1, p2, p3, p4, p5, p6, p7, p8, p9⟩ := h
  simp only [aplicarHoraDefecto]
  split_ifs with hcond
  · refine ⟨_, rfl, ?_, ?_⟩
    · simp only [clave, claveDia]
      obtain ⟨h0, hm0, -⟩ := hcond
      omega
    · exact ⟨p1, p2, p3, p4, p5, by norm_num, by norm_num, p8, p9⟩
  · exact ⟨m, rfl, le_refl _, ⟨p1, p2, p3, p4, p5, p6, p7, p8, p9⟩⟩

theorem aplicarHora7_ge {m : Fecha} (n : String) (h : CamposOk m) :
    ∃ g : Fecha, aplicarHora7 (.valido m) n = .valido g ∧
      clave m ≤ clave g ∧ CamposOk g := by
  obtain ⟨p1, p2, p3, p4, p5, p6, p7, p8, p9⟩ := h
  simp only [aplicarHora7]
  split_ifs with hcond
  · refine ⟨_, rfl, ?_, ?_⟩
    · simp only [clave, claveDia]
      obtain ⟨-, h7, -⟩ := hcond
      omega
    · exact ⟨p1, p2, p3, p4, p5, by norm_num, p7, p8, p9⟩
  · exact ⟨m, rfl, le_refl _, ⟨p1, p2, p3, p4, p5, p6, p7, p8, p9⟩⟩

/-- The whole corrector, on a weekday-naming, non-day-count expression, sends
any valid candidate to a valid instant at or after the reference. -/
theorem validar_nunca_pasado (f refF : Fecha) (e : String)
    (hf : CamposOk f) (hr : CamposOk refF)
    (hd : esDiaSemanaEspecifico (jsToLower e) = true)
    (hc : esConteoDias (jsToLower e) = false) :
    ∃ g : Fecha, validarYCorregirFecha (.valido f) refF e = .valido g ∧
      clave refF ≤ clave g := by
  obtain ⟨g1, e1, le1, ok1⟩ := corregirPasada_spec hf hr hd hc
  obtain ⟨g2, e2, le2, ok2⟩ := aplicarHoraDefecto_ge (jsToLower e) ok1
  obtain ⟨g3, e3, le3, ok3⟩ := aplicarHora7_ge (jsToLower e) ok2
  have htot : validarYCorregirFecha (.valido f) refF e = .valido g3 := by
    simp only [validarYCorregirFecha]
    rw [e1, e2, e3]
  exact ⟨g3, htot, le_trans le1 (le_trans le2 le3)⟩

/-! ## Substring facts: a weekday match makes the classifier accept -/

theorem infijo_mono_cons (m : List Char) (c : Char) (l : List Char)
    (h : esInfijo m l = true) : esInfijo m (c :: l) = true := by
  simp only [esInfijo, Bool.or_eq_true]
  exact Or.inr h

theorem prefijo_infijo (m l : List Char) (h : List.isPrefixOf m l = true) :
    esInfijo m l = true := by
  cases l with
  | nil => exact h
  | cons c t => simp only [esInfijo, Bool.or_eq_true]; exact Or.inl h

theorem infijo_drop (m : List Char) : ∀ (k : Nat) (l : List Char),
    esInfijo m (l.drop k) = true → esInfijo m l = true := by
  intro k
  induction k with
  | zero => intro l h; simpa using h
  | succ k ih =>
    intro l h
    cases l with
    | nil => simpa using h
    | cons c t => exact infijo_mono_cons m c t (ih t h)

theorem infijo_dropWhile_de (m : List Char) (p : Char → Bool) :
    ∀ l : List Char, esInfijo m (l.dropWhile p) = true → esInfijo m l = true := by
  intro l
  induction l with
  | nil => intro h; simpa using h
  | cons c t ih =>
    intro h
    rw [List.dropWhile_cons] at h
    by_cases hc : p c = true
    · rw [if_pos hc] at h
      exact infijo_mono_cons m c t (ih h)
    · rw [if_neg hc] at h
      exact h

theorem despuesDe_infijo (pat : String) (l r m : List Char)
    (h : despuesDe pat l = some r) (hm : esInfijo m r = true) :
    esInfijo m l = true := by
  simp only [despuesDe] at h
  split at h
  · injection h with h2
    subst h2
    exact infijo_drop m pat.data.length l hm
  · exact Option.noConfusion h

theorem ws1_infijo (l r m : List Char) (h : ws1 l = some r)
    (hm : esInfijo m r = true) : esInfijo m l = true := by
  cases l with
  | nil => exact Option.noConfusion h
  | cons c t =>
    simp only [ws1] at h
    split at h
    · injection h with h2
      subst h2
      exact infijo_mono_cons m c t (infijo_dropWhile_de m esEspacio t hm)
    · exact Option.noConfusion h

theorem tryAlt_propiedades (nombre : String) (rest : List Char) :
    ∀ (alts : List String) (l : List Char), tryAlt alts l = some (nombre, rest) →
      nombre ∈ alts ∧ List.isPrefixOf nombre.data l = true := by
  intro alts
  induction alts with
  | nil => intro l h; exact Option.noConfusion h
  | cons a resto ih =>
    intro l h
    simp only [tryAlt] at h
    cases hda : despuesDe a l with
    | some r =>
      rw [hda] at h
      injection h with h2
      have ha : a = nombre := congrArg Prod.fst h2
      subst ha
      refine ⟨List.mem_cons_self a resto, ?_⟩
      simp only [despuesDe] at hda
      split at hda
      · assumption
      · exact Option.noConfusion hda
    | none =>
      rw [hda] at h
      obtain ⟨hmem, hpref⟩ := ih l h
      exact ⟨List.mem_cons_of_mem a hmem, hpref⟩

theorem trasArticulo_infijo (art : String) (l : List Char) (nombre : String)
    (h : trasArticulo art l = some nombre) :
    nombre ∈ diasRegexEspecifico ∧ esInfijo nombre.data l = true := by
  simp only [trasArticulo, Option.bind_eq_bind, Option.bind_eq_some] at h
  obtain ⟨r, hr, r2, hr2, x, hx, hpure⟩ := h
  obtain ⟨nom, rest⟩ := x
  simp only [Option.pure_def, Option.some.injEq] at hpure
  subst hpure
  obtain ⟨hmem, hpref⟩ := tryAlt_propiedades nom rest diasRegexEspecifico r2 hx
  refine ⟨hmem, ?_⟩
  exact despuesDe_infijo art l r nom.data hr
    (ws1_infijo r r2 nom.data hr2 (prefijo_infijo nom.data r2 hpref))

theorem pDiaEspecifico_infijo (l : List Char) (nombre : String)
    (h : pDiaEspecificoAt l = some nombre) :
    nombre ∈ diasRegexEspecifico ∧ esInfijo nombre.data l = true := by
  simp only [pDiaEspecificoAt] at h
  cases h1 : trasArticulo "el" l with
  | some n => rw [h1] at h; injection h with h2; subst h2; exact trasArticulo_infijo _ _ _ h1
  | none =>
    rw [h1] at h
    cases h2 : trasArticulo "la" l with
    | some n => rw [h2] at h; injection h with h3; subst h3; exact trasArticulo_infijo _ _ _ h2
    | none =>
      rw [h2] at h
      cases h3 : trasArticulo "els" l with
      | some n => rw [h3] at h; injection h with h4; subst h4; exact trasArticulo_infijo _ _ _ h3
      | none =>
        rw [h3] at h
        exact trasArticulo_infijo _ _ _ h

theorem busca_dia_infijo : ∀ (l : List Char) (nombre : String),
    busca pDiaEspecificoAt l = some nombre →
    nombre ∈ diasRegexEspecifico ∧ esInfijo nombre.data l = true := by
  intro l
  induction l with
  | nil => intro nombre h; exact pDiaEspecifico_infijo [] nombre h
  | cons c t ih =>
    intro nombre h
    simp only [busca] at h
    cases hp : pDiaEspecificoAt (c :: t) with
    | some a =>
      rw [hp] at h
      injection h with h2
      subst h2
      exact pDiaEspecifico_infijo (c :: t) a hp
    | none =>
      rw [hp] at h
      obtain ⟨hmem, hinf⟩ := ih nombre h
      exact ⟨hmem, infijo_mono_cons nombre.data c t hinf⟩

theorem esInfijo_iff (m : List Char) : ∀ l : List Char, esInfijo m l = true ↔ m <:+: l := by
  intro l
  induction l with
  | nil => simp [esInfijo, List.isPrefixOf_iff_prefix]
  | cons c t ih =>
    rw [List.infix_cons_iff]
    simp [esInfijo, List.isPrefixOf_iff_prefix, ih]

theorem infijo_dropWhile_en (m : List Char) (hm : m ≠ [])
    (hws : ∀ c ∈ m, esEspacio c = false) :
    ∀ l : List Char, esInfijo m l = true → esInfijo m (l.dropWhile esEspacio) = true := by
  intro l
  induction l with
  | nil => intro h; simpa using h
  | cons c t ih =>
    intro h
    rw [List.dropWhile_cons]
    by_cases hc : esEspacio c = true
    · rw [if_pos hc]
      apply ih
      simp only [esInfijo, Bool.or_eq_true] at h
      rcases h with hpre | hinf
      · cases m with
        | nil => exact absurd rfl hm
        | cons mh mt =>
          simp only [List.isPrefixOf, Bool.and_eq_true, beq_iff_eq] at hpre
          have := hws mh (List.mem_cons_self mh mt)
          rw [hpre.1] at this
          rw [this] at hc
          exact absurd hc (by decide)
      · exact hinf
    · rw [if_neg hc]
      exact h

theorem infijo_recorta (m l : List Char) (hm : m ≠ [])
    (hws : ∀ c ∈ m, esEspacio c = false) (h : esInfijo m l = true) :
    esInfijo m (recortaLista l) = true := by
  have paso1 : esInfijo m (l.dropWhile esEspacio) = true :=
    infijo_dropWhile_en m hm hws l h
  have hrev1 : esInfijo m.reverse (l.dropWhile esEspacio).reverse = true := by
    rw [esInfijo_iff]
    exact List.reverse_infix.mpr ((esInfijo_iff m _).mp paso1)
  have hmrev : m.reverse ≠ [] := by simpa using hm
  have hwsrev : ∀ c ∈ m.reverse, esEspacio c = false := by
    intro c hc
    exact hws c (List.mem_reverse.mp hc)
  have paso2 : esInfijo m.reverse ((l.dropWhile esEspacio).reverse.dropWhile esEspacio) = true :=
    infijo_dropWhile_en m.reverse hmrev hwsrev _ hrev1
  have paso3 : m <:+: ((l.dropWhile esEspacio).reverse.dropWhile esEspacio).reverse := by
    have := List.reverse_infix.mpr ((esInfijo_iff m.reverse _).mp paso2)
    rwa [List.reverse_reverse] at this
  rw [esInfijo_iff]
  exact paso3

/-- An expression matching the corrector's "article + weekday" regex always
contains a weekday keyword, so the classifier marks it temporally clear. -/
theorem dia_clasifica_claro (e : String)
    (h : esDiaSemanaEspecifico (jsToLower e) = true) :
    esExpresionTemporalClara e = true := by
  unfold esDiaSemanaEspecifico at h
  obtain ⟨nombre, hb⟩ := Option.isSome_iff_exists.mp h
  obtain ⟨hmem, hinf⟩ := busca_dia_infijo (jsToLower e).data nombre hb
  have hprops : ∀ n ∈ diasRegexEspecifico,
      n.data ≠ [] ∧ (∀ c ∈ n.data, esEspacio c = false) ∧ n ∈ palabrasTemporales := by
    decide
  obtain ⟨hne, hnws, htempmem⟩ := hprops nombre hmem
  have hinf2 : esInfijo nombre.data (recortaLista (jsToLower e).data) = true :=
    infijo_recorta nombre.data (jsToLower e).data hne hnws hinf
  have hcont : contiene (normalizar e) nombre = true := hinf2
  have htiene : tieneTemporalEn (normalizar e) = true := by
    unfold tieneTemporalEn
    rw [List.any_eq_true]
    exact ⟨nombre, htempmem, hcont⟩
  simp [esExpresionTemporalClara, htiene]

/-! ## The preprocessor and the handler never resolve past (C1) -/

theorem fromISO_valida {s : String} {f : Fecha} (h : fromISO s = .valido f) :
    fechaValida f = true := by
  unfold fromISO at h
  cases hana : analizaISO s.data with
  | none => simp only [hana] at h; exact absurd h (by simp)
  | some g =>
    simp only [hana] at h
    by_cases hv : fechaValida g = true
    · rw [if_pos hv] at h
      injection h with h2
      subst h2
      exact hv
    · rw [if_neg hv] at h
      exact absurd h (by simp)

theorem camposOk_of_valida {f : Fecha} (h : fechaValida f = true) : CamposOk f := by
  simp only [fechaValida, Bool.and_eq_true, decide_eq_true_eq] at h
  unfold CamposOk
  omega

theorem ltDT_plusDias (refF : Fecha) (hr : CamposOk refF) {k : Nat} (hk : 1 ≤ k) :
    ltDT (.valido (plusDias refF k)) (.valido refF) = false := by
  have hd := claveDia_plusDias hr k
  obtain ⟨r1, r2, r3, r4, r5, r6, r7, r8, r9⟩ := hr
  simp only [ltDT, decide_eq_false_iff_not]
  intro habs
  have h2 : clave refF < clave (plusDias refF k) :=
    clave_lt_of_claveDia_lt (by omega) r6 r7 r8 r9
  omega

theorem ltDT_estableceHMS_plus (refF : Fecha) (hr : CamposOk refF)
    {k h mi s ms : Nat} (hk : 1 ≤ k) :
    ltDT (estableceHMS (plusDias refF k) h mi s ms) (.valido refF) = false := by
  have hd := claveDia_plusDias hr k
  obtain ⟨r1, r2, r3, r4, r5, r6, r7, r8, r9⟩ := hr
  simp only [estableceHMS]
  split_ifs with hcond
  · simp only [ltDT, decide_eq_false_iff_not]
    intro habs
    have h2 : clave refF <
        clave ({ (plusDias refF k) with hour := h, minute := mi, second := s, ms := ms } : Fecha) :=
      clave_lt_of_claveDia_lt
        (show claveDia refF < claveDia (plusDias refF k) by omega) r6 r7 r8 r9
    exact absurd habs (not_lt.mpr (le_of_lt h2))
  · rfl

theorem resolverSemana_no_pasada (refF : Fecha) (dia : Nat) (hr : CamposOk refF) :
    ltDT (resolverSemanaQueViene refF dia) (.valido refF) = false := by
  simp only [resolverSemanaQueViene]
  apply ltDT_estableceHMS_plus refF hr
  have := mod7_sel (8 - diaSemanaF refF)
  omega

theorem resolverQueViene_no_pasada (refF : Fecha) (dia : Nat) (hr : CamposOk refF)
    (h1 : 1 ≤ dia) (h2 : dia ≤ 7) :
    ltDT (resolverQueViene refF dia) (.valido refF) = false := by
  have hrng := diaSemanaF_en_rango refF
  have hsal := salto_toNat_rango dia (diaSemanaF refF) h1 h2 hrng.1 hrng.2
  simp only [resolverQueViene]
  apply ltDT_estableceHMS_plus refF hr
  by_cases hc : diaSemanaF refF = 5 ∧
      (if ((dia : Int) - (diaSemanaF refF : Int)) ≤ 0 then
        (dia : Int) - (diaSemanaF refF : Int) + 7
      else (dia : Int) - (diaSemanaF refF : Int)) ≤ 2
  · rw [if_pos hc]
    norm_num
  · rw [if_neg hc]
    exact hsal.1

theorem lookup_valor {α β : Type} [BEq α] (a : α) (b : β) :
    ∀ l : List (α × β), l.lookup a = some b → b ∈ l.map Prod.snd := by
  intro l
  induction l with
  | nil => intro h; exact Option.noConfusion h
  | cons p t ih =>
    obtain ⟨k, v⟩ := p
    intro h
    simp only [List.lookup] at h
    cases hbk : a == k with
    | true => rw [hbk] at h; injection h with h2; subst h2; exact List.mem_cons_self _ _
    | false => rw [hbk] at h; exact List.mem_cons_of_mem _ (ih h)

theorem lookup_diasSemana_rango {nombre : String} {dia : Nat}
    (h : diasSemana.lookup nombre = some dia) : 1 ≤ dia ∧ dia ≤ 7 := by
  have hmem := lookup_valor nombre dia diasSemana h
  have : ∀ d ∈ diasSemana.map Prod.snd, 1 ≤ d ∧ d ≤ 7 := by decide
  exact this dia hmem

theorem queViene_nunca_pasado (e : String) (refF : Fecha) (dt : DT) (hr : CamposOk refF)
    (hpre : (match matchQueViene (normalizar e) with
             | some nombre => (diasSemana.lookup (jsToLower nombre)).map (resolverQueViene refF)
             | none => none) = some dt) :
    ltDT dt (.valido refF) = false := by
  cases h6 : matchQueViene (normalizar e) with
  | some nombre2 =>
    simp only [h6] at hpre
    cases h7 : diasSemana.lookup (jsToLower nombre2) with
    | some dia =>
      simp only [h7, Option.map_some'] at hpre
      injection hpre with h8
      subst h8
      obtain ⟨hd1, hd2⟩ := lookup_diasSemana_rango h7
      exact resolverQueViene_no_pasada refF dia hr hd1 hd2
    | none =>
      simp only [h7, Option.map_none'] at hpre
      exact Option.noConfusion hpre
  | none =>
    simp only [h6] at hpre
    exact Option.noConfusion hpre

/-- Every answer produced by the preprocessor short-circuit sits at or after
the reference instant (or is the invalid DateTime), so it is never "past". -/
theorem preprocesar_nunca_pasado (e : String) (refF : Fecha) (dt : DT)
    (hr : CamposOk refF) (hpre : preprocesarExpresion e refF = some dt) :
    ltDT dt (.valido refF) = false := by
  simp only [preprocesarExpresion] at hpre
  cases h1 : matchPasadoMananaHora e with
  | some hora =>
    simp only [h1] at hpre
    injection hpre with h2
    subst h2
    exact ltDT_estableceHMS_plus refF hr (by norm_num)
  | none =>
    simp only [h1] at hpre
    cases h2 : matchDemaPassatHora e with
    | some hora =>
      simp only [h2] at hpre
      injection hpre with h3
      subst h3
      exact ltDT_estableceHMS_plus refF hr (by norm_num)
    | none =>
      simp only [h2] at hpre
      by_cases h3 : (contiene (normalizar e) "pasado mañana" ||
          contiene (normalizar e) "demà passat") = true
      · rw [if_pos h3] at hpre
        injection hpre with h4
        subst h4
        exact ltDT_plusDias refF hr (by norm_num)
      · rw [if_neg h3] at hpre
        cases h4 : matchSemanaQueViene (normalizar e) with
        | some nombre =>
          simp only [h4] at hpre
          cases h5 : diasSemana.lookup (jsToLower nombre) with
          | some dia =>
            simp only [h5, Option.map_some'] at hpre
            injection hpre with h6
            subst h6
            exact resolverSemana_no_pasada refF dia hr
          | none =>
            simp only [h5, Option.map_none'] at hpre
            exact queViene_nunca_pasado e refF dt hr hpre
        | none =>
          simp only [h4] at hpre
          exact queViene_nunca_pasado e refF dt hr hpre

/-- C1 counterexample: a weekday-naming request whose base parser yields no
candidate but whose configured model fallback replies with a past Monday is
Resolved to that past date with es_pasado = true — the no-parse fallback path
(`if (fechaOpenAI) { fecha = fechaOpenAI; }`) adopts the model's date without
any past-date guard. -/
theorem c1_contraejemplo :
    esDiaSemanaEspecifico (jsToLower "el lunes") = true ∧
    esConteoDias (jsToLower "el lunes") = false ∧
    parseFecha (some "2025-11-04T09:00:00+01:00") (some "el lunes") (fun _ => none)
      true none (.contenido (some "2020-01-06T10:00:00+01:00")) =
    .okRespuesta
      { fecha_resuelta := "2020-01-06", dia_semana := "lunes", hora := "10:00",
        iso_datetime := some "2020-01-06T10:00:00.000+01:00",
        es_finde := false, es_pasado := true } := by
  decide

/-- C1 (amended). Never-past on the deterministic paths: for a weekday-naming
request (article + weekday match, not a day-count), (1) any answer produced by
the PatternPreprocessor short-circuit and (2) any answer produced from a base
parser candidate through the RuleCorrector is a Resolved response whose
instant is not strictly before the reference — es_pasado is false — whatever
the model-fallback configuration. The exception the counterexample exhibits
is the parser-failure fallback path, which adopts the model's date without a
past-date guard. -/
theorem c1_nunca_pasado :
    (∀ (refS e : String) (refF : Fecha) (dt : DT) (ch : String → Option Fecha)
        (conf : Bool) (tr : Option String) (resp : RespuestaModelo),
      fromISO refS = .valido refF →
      esDiaSemanaEspecifico (jsToLower e) = true →
      preprocesarExpresion e refF = some dt →
      parseFecha (some refS) (some e) ch conf tr resp =
        .okRespuesta (ensamblarRespuesta dt refF e) ∧
      ltDT dt (.valido refF) = false ∧
      (ensamblarRespuesta dt refF e).es_pasado = false) ∧
    (∀ (refS e : String) (refF p : Fecha) (ch : String → Option Fecha)
        (conf : Bool) (tr : Option String) (resp : RespuestaModelo),
      fromISO refS = .valido refF →
      esDiaSemanaEspecifico (jsToLower e) = true →
      esConteoDias (jsToLower e) = false →
      preprocesarExpresion e refF = none →
      ch e = some p → CamposOk p →
      ∃ g : Fecha, clave refF ≤ clave g ∧
        parseFecha (some refS) (some e) ch conf tr resp =
          .okRespuesta (ensamblarRespuesta (.valido g) refF e) ∧
        (ensamblarRespuesta (.valido g) refF e).es_pasado = false) := by
  constructor
  · intro refS e refF dt ch conf tr resp hiso hdia hpre
    have hcl := dia_clasifica_claro e hdia
    have he : e ≠ "" := by
      intro hv
      rw [hv] at hdia
      exact absurd hdia (by decide)
    have href : refS ≠ "" := by
      intro hv
      rw [hv] at hiso
      rw [show fromISO "" = DT.invalido from by decide] at hiso
      exact DT.noConfusion hiso
    have hr := camposOk_of_valida (fromISO_valida hiso)
    have hlt := preprocesar_nunca_pasado e refF dt hr hpre
    have h1 : esFalsy (some refS) = false := by simp [esFalsy, href]
    have h2 : esFalsy (some e) = false := by simp [esFalsy, he]
    refine ⟨?_, hlt, ?_⟩
    · simp [parseFecha, h1, h2, valorDe, hcl, hiso, hpre]
    · show ltDT dt (.valido refF) = false
      exact hlt
  · intro refS e refF p ch conf tr resp hiso hdia hconteo hpre hch hpok
    have hcl := dia_clasifica_claro e hdia
    have he : e ≠ "" := by
      intro hv
      rw [hv] at hdia
      exact absurd hdia (by decide)
    have href : refS ≠ "" := by
      intro hv
      rw [hv] at hiso
      rw [show fromISO "" = DT.invalido from by decide] at hiso
      exact DT.noConfusion hiso
    have hr := camposOk_of_valida (fromISO_valida hiso)
    obtain ⟨g, hval, hge⟩ := validar_nunca_pasado p refF e hpok hr hdia hconteo
    have hltg : ltDT (.valido g) (.valido refF) = false := by
      simp only [ltDT, decide_eq_false_iff_not]
      omega
    have h1 : esFalsy (some refS) = false := by simp [esFalsy, href]
    have h2 : esFalsy (some e) = false := by simp [esFalsy, he]
    refine ⟨g, hge, ?_, ?_⟩
    · simp [parseFecha, h1, h2, valorDe, hcl, hiso, hpre, hch, hval, hltg, ite_self]
    · show ltDT (.valido g) (.valido refF) = false
      exact hltg

/-- Witness for the amended C1: the preprocessor path on "el lunes que viene"
(Thursday reference, resolving to Monday 2025-11-10 14:00) and the corrector
path on "el martes" with a past-Tuesday parser candidate, even with a
configured fallback replying a past date. -/
theorem c1_nunca_pasado_testigo :
    (parseFecha (some "2025-11-06T09:00:00+01:00") (some "el lunes que viene")
        (fun _ => none) false none .fallo =
      .okRespuesta (ensamblarRespuesta (.valido ⟨2025, 11, 10, 14, 0, 0, 0⟩)
        ⟨2025, 11, 6, 9, 0, 0, 0⟩ "el lunes que viene") ∧
      ltDT (.valido ⟨2025, 11, 10, 14, 0, 0, 0⟩) (.valido ⟨2025, 11, 6, 9, 0, 0, 0⟩) = false ∧
      (ensamblarRespuesta (.valido ⟨2025, 11, 10, 14, 0, 0, 0⟩) ⟨2025, 11, 6, 9, 0, 0, 0⟩
        "el lunes que viene").es_pasado = false) ∧
    (∃ g : Fecha, clave ⟨2025, 11, 6, 9, 0, 0, 0⟩ ≤ clave g ∧
      parseFecha (some "2025-11-06T09:00:00+01:00") (some "el martes")
        chronoMartesPasado true none (.contenido (some "2020-01-06T10:00:00+01:00")) =
        .okRespuesta (ensamblarRespuesta (.valido g) ⟨2025, 11, 6, 9, 0, 0, 0⟩ "el martes") ∧
      (ensamblarRespuesta (.valido g) ⟨2025, 11, 6, 9, 0, 0, 0⟩ "el martes").es_pasado = false) := by
  constructor
  · exact c1_nunca_pasado.1 "2025-11-06T09:00:00+01:00" "el lunes que viene"
      ⟨2025, 11, 6, 9, 0, 0, 0⟩ (.valido ⟨2025, 11, 10, 14, 0, 0, 0⟩) (fun _ => none)
      false none .fallo (by decide) (by decide) (by decide)
  · exact c1_nunca_pasado.2 "2025-11-06T09:00:00+01:00" "el martes"
      ⟨2025, 11, 6, 9, 0, 0, 0⟩ ⟨2025, 11, 4, 16, 30, 0, 0⟩ chronoMartesPasado
      true none (.contenido (some "2020-01-06T10:00:00+01:00"))
      (by decide) (by decide) (by decide) (by decide) (by decide) (by decide)

/-- C2. Past-date correction: it fires exactly under the article-weekday,
non-day-count precondition — a past candidate is then recomputed as
`reference + ((candidateWeekday − referenceWeekday) mod 7, 7 for 0)` days with
the candidate's hour and minute; a day-count expression is never past-corrected;
an expression without the article + weekday-name match is never past-corrected
either (both "only when" directions); last conjunct: a concrete past Saturday
day-count candidate passes the whole corrector untouched, landing on a
weekend. -/
theorem c2_correccion_pasada :
    (∀ (f refF : Fecha) (n : String), CamposOk f → CamposOk refF →
      esDiaSemanaEspecifico n = true → esConteoDias n = false →
      clave f < clave refF →
      corregirPasada (.valido f) refF n =
        .valido { (plusDias refF
            (if (diaSemanaF f + 7 - diaSemanaF refF) % 7 = 0 then 7
             else (diaSemanaF f + 7 - diaSemanaF refF) % 7)) with
          hour := f.hour, minute := f.minute, second := 0, ms := 0 }) ∧
    (∀ (fecha : DT) (refF : Fecha) (n : String), esConteoDias n = true →
      corregirPasada fecha refF n = fecha) ∧
    (∀ (fecha : DT) (refF : Fecha) (n : String), esDiaSemanaEspecifico n = false →
      corregirPasada fecha refF n = fecha) ∧
    (esConteoDias (jsToLower "en 2 días") = true ∧
      validarYCorregirFecha (.valido ⟨2025, 11, 1, 10, 0, 0, 0⟩)
        ⟨2025, 11, 4, 9, 0, 0, 0⟩ "en 2 días" = .valido ⟨2025, 11, 1, 10, 0, 0, 0⟩ ∧
      diaSemanaF ⟨2025, 11, 1, 10, 0, 0, 0⟩ = 6 ∧
      ltDT (.valido ⟨2025, 11, 1, 10, 0, 0, 0⟩) (.valido ⟨2025, 11, 4, 9, 0, 0, 0⟩) = true) := by
  refine ⟨?_, ?_, ?_, by decide⟩
  · intro f refF n hf hr hd hc hlt
    obtain ⟨f1, f2, f3, f4, f5, f6, f7, f8, f9⟩ := hf
    have hrf := diaSemanaF_en_rango f
    have hrr := diaSemanaF_en_rango refF
    simp only [corregirPasada]
    rw [if_pos ⟨hlt, hd, hc⟩]
    rw [dias_salto_eq (diaSemanaF f) (diaSemanaF refF) hrf.1 hrf.2 hrr.1 hrr.2]
    simp only [estableceHMS]
    rw [if_pos ⟨f6, f7, by norm_num, by norm_num⟩]
  · intro fecha refF n hc
    cases fecha with
    | invalido => rfl
    | valido f =>
      simp only [corregirPasada]
      rw [if_neg (fun h => by rw [hc] at h; exact absurd h.2.2 (by decide))]
  · intro fecha refF n hd
    cases fecha with
    | invalido => rfl
    | valido f =>
      simp only [corregirPasada]
      rw [if_neg (fun h => by rw [hd] at h; exact absurd h.2.1 (by decide))]

/-- Witness for C2: a past Tuesday candidate against a Thursday reference
jumps five days to the next Tuesday keeping 16:30, while a past candidate for
"mañana" (no article + weekday match) is left uncorrected. -/
theorem c2_correccion_pasada_testigo :
    corregirPasada (.valido ⟨2025, 11, 4, 16, 30, 0, 0⟩) ⟨2025, 11, 6, 9, 0, 0, 0⟩
      "el martes" = .valido ⟨2025, 11, 11, 16, 30, 0, 0⟩ ∧
    corregirPasada (.valido ⟨2025, 11, 3, 10, 0, 0, 0⟩) ⟨2025, 11, 4, 9, 0, 0, 0⟩
      "mañana" = .valido ⟨2025, 11, 3, 10, 0, 0, 0⟩ := by
  constructor
  · rw [c2_correccion_pasada.1 ⟨2025, 11, 4, 16, 30, 0, 0⟩ ⟨2025, 11, 6, 9, 0, 0, 0⟩
      "el martes" (by decide) (by decide) (by decide) (by decide) (by decide)]
    decide
  · exact c2_correccion_pasada.2.2.1 (.valido ⟨2025, 11, 3, 10, 0, 0, 0⟩)
      ⟨2025, 11, 4, 9, 0, 0, 0⟩ "mañana" (by decide)

/-! ## PatternPreprocessor lemmas -/

/-- The weekend-skipping jump of rule 4, in claim form (`mod 7`, 7 for 0,
then the Friday skip), equals the Int computation of the source. -/
theorem salto_finde_eq : ∀ dia : Nat, dia ≤ 7 → 1 ≤ dia → ∀ hoy : Nat, hoy ≤ 7 → 1 ≤ hoy →
    (if hoy = 5 ∧ (if ((dia : Int) - (hoy : Int)) ≤ 0 then (dia : Int) - (hoy : Int) + 7
                   else (dia : Int) - (hoy : Int)) ≤ 2 then (3 : Int)
     else (if ((dia : Int) - (hoy : Int)) ≤ 0 then (dia : Int) - (hoy : Int) + 7
           else (dia : Int) - (hoy : Int))).toNat =
    (if hoy = 5 ∧ (if (dia + 7 - hoy) % 7 = 0 then 7 else (dia + 7 - hoy) % 7) ≤ 2 then 3
     else (if (dia + 7 - hoy) % 7 = 0 then 7 else (dia + 7 - hoy) % 7)) := by
  decide

/-- C3. "Weekday X de la semana que viene": when no earlier preprocessor rule
matches and the next-week regex captures a weekday name mapped to `dia`, the
result is reference + ((8 − currentWeekday) mod 7, 7 for 0) + (dia − 1) mod 7
days at the default hour 14:00. -/
theorem c3_semana_proxima (e : String) (refF : Fecha) (nombre : String) (dia : Nat)
    (h1 : matchPasadoMananaHora e = none)
    (h2 : matchDemaPassatHora e = none)
    (h3 : contiene (normalizar e) "pasado mañana" = false)
    (h4 : contiene (normalizar e) "demà passat" = false)
    (h5 : matchSemanaQueViene (normalizar e) = some nombre)
    (h6 : diasSemana.lookup (jsToLower nombre) = some dia) :
    preprocesarExpresion e refF =
      some (estableceHMS
        (plusDias refF
          ((if (8 - diaSemanaF refF) % 7 = 0 then 7 else (8 - diaSemanaF refF) % 7) +
            (dia - 1) % 7)) 14 0 0 0) := by
  simp only [preprocesarExpresion, h1, h2, h3, h4, h5, h6, Bool.or_self,
    Bool.false_eq_true, if_false, Option.map_some', resolverSemanaQueViene]

/-- Witness for C3: scenario 5 of the spec — Tuesday reference
2025-11-04, "el martes de la semana que viene" resolves to 2025-11-11 14:00,
seven days out, never the current week's Tuesday. -/
theorem c3_semana_proxima_testigo :
    preprocesarExpresion "el martes de la semana que viene" ⟨2025, 11, 4, 9, 0, 0, 0⟩ =
      some (.valido ⟨2025, 11, 11, 14, 0, 0, 0⟩) := by
  rw [c3_semana_proxima "el martes de la semana que viene" ⟨2025, 11, 4, 9, 0, 0, 0⟩
    "martes" 2 (by decide) (by decide) (by decide) (by decide) (by decide) (by decide)]
  decide

/-- Rule 4's resolver, rephrased with the claim's `mod`-form jump. -/
theorem resolverQueViene_formula (refF : Fecha) (dia : Nat) (hd : dia ≤ 7) (hd1 : 1 ≤ dia) :
    resolverQueViene refF dia =
      estableceHMS (plusDias refF
        (if diaSemanaF refF = 5 ∧
            (if (dia + 7 - diaSemanaF refF) % 7 = 0 then 7
             else (dia + 7 - diaSemanaF refF) % 7) ≤ 2
         then 3
         else if (dia + 7 - diaSemanaF refF) % 7 = 0 then 7
              else (dia + 7 - diaSemanaF refF) % 7)) 14 0 0 0 := by
  have hr := diaSemanaF_en_rango refF
  simp only [resolverQueViene]
  rw [salto_finde_eq dia hd hd1 (diaSemanaF refF) hr.2 hr.1]

/-- C4. "Weekday X que viene/ve": when no earlier rule matches and the regex
captures a weekday mapped to `dia`, the result is reference + diff days at
14:00 with diff = (dia − currentWeekday) mod 7 (7 for 0), except that a Friday
reference whose raw diff lands on Saturday/Sunday (diff ≤ 2) is forced to the
following Monday (diff 3) — the hard-coded weekend-skip policy. -/
theorem c4_que_viene (e : String) (refF : Fecha) (nombre : String) (dia : Nat)
    (h1 : matchPasadoMananaHora e = none)
    (h2 : matchDemaPassatHora e = none)
    (h3 : contiene (normalizar e) "pasado mañana" = false)
    (h4 : contiene (normalizar e) "demà passat" = false)
    (h5 : matchSemanaQueViene (normalizar e) = none)
    (h6 : matchQueViene (normalizar e) = some nombre)
    (h7 : diasSemana.lookup (jsToLower nombre) = some dia)
    (h8 : dia ≤ 7) (h9 : 1 ≤ dia) :
    preprocesarExpresion e refF =
      some (estableceHMS (plusDias refF
        (if diaSemanaF refF = 5 ∧
            (if (dia + 7 - diaSemanaF refF) % 7 = 0 then 7
             else (dia + 7 - diaSemanaF refF) % 7) ≤ 2
         then 3
         else if (dia + 7 - diaSemanaF refF) % 7 = 0 then 7
              else (dia + 7 - diaSemanaF refF) % 7)) 14 0 0 0) := by
  simp only [preprocesarExpresion, h1, h2, h3, h4, h5, h6, h7, Bool.or_self,
    Bool.false_eq_true, if_false, Option.map_some']
  rw [resolverQueViene_formula refF dia h8 h9]

/-- Witness for C4: scenario 3 of the spec — Friday reference 2025-11-07,
"el sábado que viene" skips the weekend and resolves to Monday 2025-11-10
14:00 instead of the immediate Saturday. -/
theorem c4_que_viene_testigo :
    preprocesarExpresion "el sábado que viene" ⟨2025, 11, 7, 10, 0, 0, 0⟩ =
      some (.valido ⟨2025, 11, 10, 14, 0, 0, 0⟩) := by
  rw [c4_que_viene "el sábado que viene" ⟨2025, 11, 7, 10, 0, 0, 0⟩ "sábado" 6
    (by decide) (by decide) (by decide) (by decide) (by decide) (by decide)
    (by decide) (by decide) (by decide)]
  decide

/-! ## Ambiguous-hour lemmas and C5 -/

/-- C5. Ambiguous-hour disambiguation: (a) any 7-o'clock candidate whose
expression matches bare "a las/les 7" with no AM qualifier leaves the
corrector with hour 19; (b) end to end, Tuesday reference 2025-11-04T09:00
with "el viernes a las 7" (base parser returning the next Friday at 7:00)
answers fecha_resuelta 2025-11-07, hora 19:00, es_finde false, es_pasado
false. -/
theorem c5_hora_ambigua :
    (∀ (f refF : Fecha) (e : String), f.hour = 7 → f.minute ≤ 59 →
      matchHora7 (jsToLower e) = true → tieneAm7 (jsToLower e) = false →
      ∃ g : Fecha, validarYCorregirFecha (.valido f) refF e = .valido g ∧
        g.hour = 19) ∧
    (∀ chronoEs : String → Option Fecha, chronoEs = chronoViernes7 →
      parseFecha (some "2025-11-04T09:00:00+01:00") (some "el viernes a las 7")
        chronoEs false none .fallo =
      .okRespuesta
        { fecha_resuelta := "2025-11-07", dia_semana := "viernes",
          hora := "19:00", iso_datetime := some "2025-11-07T19:00:00.000+01:00",
          es_finde := false, es_pasado := false }) := by
  constructor
  · intro f refF e h7hora hmin hm7 ham
    obtain ⟨g1, e1, hhora⟩ := corregirPasada_conserva_hora refF (jsToLower e)
      (by omega) hmin
    have e2 : aplicarHoraDefecto (.valido g1) (jsToLower e) = .valido g1 := by
      simp only [aplicarHoraDefecto]
      rw [if_neg]
      rintro ⟨h0, -, -⟩
      omega
    have e3 : aplicarHora7 (.valido g1) (jsToLower e) = .valido { g1 with hour := 19 } := by
      simp only [aplicarHora7]
      rw [if_pos ⟨hm7, by omega, ham⟩]
    refine ⟨{ g1 with hour := 19 }, ?_, rfl⟩
    simp only [validarYCorregirFecha]
    rw [e1, e2, e3]
  · intro chronoEs h
    subst h
    decide

/-- Witness for C5, instantiating both conjuncts at the spec scenario. -/
theorem c5_hora_ambigua_testigo :
    (∃ g : Fecha,
      validarYCorregirFecha (.valido ⟨2025, 11, 7, 7, 0, 0, 0⟩) ⟨2025, 11, 4, 9, 0, 0, 0⟩
        "el viernes a las 7" = .valido g ∧ g.hour = 19) ∧
    parseFecha (some "2025-11-04T09:00:00+01:00") (some "el viernes a las 7")
      chronoViernes7 false none .fallo =
    .okRespuesta
      { fecha_resuelta := "2025-11-07", dia_semana := "viernes",
        hora := "19:00", iso_datetime := some "2025-11-07T19:00:00.000+01:00",
        es_finde := false, es_pasado := false } :=
  ⟨c5_hora_ambigua.1 ⟨2025, 11, 7, 7, 0, 0, 0⟩ ⟨2025, 11, 4, 9, 0, 0, 0⟩
      "el viernes a las 7" (by decide) (by decide) (by decide) (by decide),
    c5_hora_ambigua.2 chronoViernes7 rfl⟩

/-! ## Classifier: C6 -/

/-- C6 counterexample: "buenos días" is one of the curated pure-greeting
phrases, yet `esExpresionTemporalClara` returns true (its keyword scan, which
runs first, finds "día"/"en" inside the greeting), so the pipeline does not
terminate with the Undefined outcome as the claim requires. -/
theorem c6_contraejemplo :
    soloSaludos.contains "buenos días" = true ∧
    esExpresionTemporalClara "buenos días" = true ∧
    parseFecha (some "2025-11-04T09:00:00+01:00") (some "buenos días")
      (fun _ => none) false none .fallo =
      .okError "No se pudo interpretar la fecha." := by
  decide

/-- C6 (amended). Temporal-keyword expressions are always classified clear;
an expression whose normalization is a curated greeting AND contains no
temporal keyword is classified not-clear, and the endpoint (with a present
referencia) answers HTTP 200 with every field "sin_definir" without
consulting the parser or fallback. -/
theorem c6_saludos_enmendada :
    (∀ e : String, tieneTemporalEn (normalizar e) = true →
      esExpresionTemporalClara e = true) ∧
    (∀ (e refS : String) (ch : String → Option Fecha) (conf : Bool)
        (tr : Option String) (resp : RespuestaModelo),
      refS ≠ "" → tieneTemporalEn (normalizar e) = false →
      esSoloSaludoEn (normalizar e) = true →
      esExpresionTemporalClara e = false ∧
      parseFecha (some refS) (some e) ch conf tr resp =
        .okRespuesta respuestaSinDefinir) := by
  constructor
  · intro e ht
    simp [esExpresionTemporalClara, ht]
  · intro e refS ch conf tr resp href ht hs
    have hclara : esExpresionTemporalClara e = false := by
      simp [esExpresionTemporalClara, ht, hs]
    have he : e ≠ "" := by
      intro hvacia
      subst hvacia
      exact absurd hs (by decide)
    have h1 : esFalsy (some refS) = false := by simp [esFalsy, href]
    have h2 : esFalsy (some e) = false := by simp [esFalsy, he]
    exact ⟨hclara, by simp [parseFecha, h1, h2, valorDe, hclara]⟩

/-- Witness for the amended C6, at the spec's own scenario "hola". -/
theorem c6_saludos_testigo :
    esExpresionTemporalClara "hola" = false ∧
    parseFecha (some "2025-11-04T09:00:00+01:00") (some "hola")
      (fun _ => none) false none .fallo = .okRespuesta respuestaSinDefinir :=
  c6_saludos_enmendada.2 "hola" "2025-11-04T09:00:00+01:00" (fun _ => none)
    false none .fallo (by decide) (by decide) (by decide)

/-! ## FallbackResolver response handling: C7 -/

/-- C7 counterexample: a model reply that is the sentinel wrapped in quotes
cleans (quote-strip + trim) to exactly the sentinel token, yet the function
returns `noDisponible` (`null`), not `sinDefinir` — the sentinel test runs
before quote-stripping. -/
theorem c7_contraejemplo :
    recortar (quitarComillas (recortar "\"sin_definir\"")) = "sin_definir" ∧
    parsearConOpenAIM true (.contenido (some "\"sin_definir\"")) = .noDisponible := by
  decide

/-- C7 (amended). With the client configured: the sentinel is returned iff the
reply's content is missing, trims to empty, or trims (before quote-stripping)
case-insensitively to the sentinel token; a transport error yields none
(`noDisponible`); otherwise the quote-stripped trim is parsed as a zoned ISO
date-time, giving the date on success and none on parse failure — never a
raised error. -/
theorem c7_respuesta_modelo :
    (∀ resp : RespuestaModelo,
      parsearConOpenAIM true resp = .sinDefinir ↔
        (resp = .contenido none ∨
          ∃ c : String, resp = .contenido (some c) ∧
            (recortar c = "" ∨ jsToLower (recortar c) = "sin_definir"))) ∧
    parsearConOpenAIM true .fallo = .noDisponible ∧
    (∀ (c : String) (f : Fecha), recortar c ≠ "" →
      jsToLower (recortar c) ≠ "sin_definir" →
      fromISO (recortar (quitarComillas (recortar c))) = .valido f →
      parsearConOpenAIM true (.contenido (some c)) = .fechaModelo f) ∧
    (∀ c : String, recortar c ≠ "" → jsToLower (recortar c) ≠ "sin_definir" →
      fromISO (recortar (quitarComillas (recortar c))) = .invalido →
      parsearConOpenAIM true (.contenido (some c)) = .noDisponible) := by
  refine ⟨?_, rfl, ?_, ?_⟩
  · intro resp
    cases resp with
    | fallo => simp [parsearConOpenAIM]
    | contenido o =>
      cases o with
      | none => simp [parsearConOpenAIM]
      | some c =>
        simp only [parsearConOpenAIM, Bool.true_eq_false, if_false]
        by_cases h1 : recortar c = ""
        · rw [if_pos h1]
          exact ⟨fun _ => Or.inr ⟨c, rfl, Or.inl h1⟩, fun _ => rfl⟩
        · rw [if_neg h1]
          by_cases h2 : jsToLower (recortar c) = "sin_definir"
          · rw [if_pos h2]
            exact ⟨fun _ => Or.inr ⟨c, rfl, Or.inr h2⟩, fun _ => rfl⟩
          · rw [if_neg h2]
            constructor
            · intro habs
              cases hfi : fromISO (recortar (quitarComillas (recortar c))) with
              | invalido => rw [hfi] at habs; exact absurd habs (by simp)
              | valido f => rw [hfi] at habs; exact absurd habs (by simp)
            · rintro (habs | ⟨c2, heq, hdisj⟩)
              · exact absurd habs (by simp)
              · injection heq with h3
                injection h3 with h4
                subst h4
                rcases hdisj with h | h
                · exact absurd h h1
                · exact absurd h h2
  · intro c f h1 h2 hfi
    simp only [parsearConOpenAIM, Bool.true_eq_false, if_false]
    rw [if_neg h1, if_neg h2, hfi]
  · intro c h1 h2 hfi
    simp only [parsearConOpenAIM, Bool.true_eq_false, if_false]
    rw [if_neg h1, if_neg h2, hfi]

/-- Witness for the amended C7: a valid ISO reply yields its date, a
whitespace-only reply yields the sentinel. -/
theorem c7_respuesta_modelo_testigo :
    parsearConOpenAIM true (.contenido (some "2025-11-07T19:00:00+01:00")) =
      .fechaModelo ⟨2025, 11, 7, 19, 0, 0, 0⟩ ∧
    parsearConOpenAIM true (.contenido (some "   ")) = .sinDefinir :=
  ⟨c7_respuesta_modelo.2.2.1 "2025-11-07T19:00:00+01:00" ⟨2025, 11, 7, 19, 0, 0, 0⟩
      (by decide) (by decide) (by decide),
    (c7_respuesta_modelo.1 (.contenido (some "   "))).mpr
      (Or.inr ⟨"   ", rfl, Or.inl (by decide)⟩)⟩

/-! ## HTTP error mapping: C8 -/

/-- C8 counterexample: a request with an invalid (but present) `referencia`
and the contentless expression "hola" is answered HTTP 200 with the
sin_definir fields — the classifier runs before reference validation, so the
claimed "400 before any pipeline stage" does not hold. -/
theorem c8_contraejemplo :
    fromISO "fecha-mala" = .invalido ∧
    parseFecha (some "fecha-mala") (some "hola") (fun _ => none) false none .fallo =
      .okRespuesta respuestaSinDefinir := by
  decide

/-- C8 (amended). Missing (or empty) `referencia`/`expresion_usuario` gives
HTTP 400 before everything; an invalid present `referencia` gives 400 only
when the expression is temporally clear (the classifier short-circuits
first); a clear expression no stage can interpret gives HTTP 200 with
`error: true`. -/
theorem c8_errores_enmendada :
    (∀ (referencia expresion : Option String) (ch : String → Option Fecha)
        (conf : Bool) (tr : Option String) (resp : RespuestaModelo),
      (esFalsy referencia || esFalsy expresion) = true →
      parseFecha referencia expresion ch conf tr resp =
        .malaPeticion "Faltan parámetros requeridos: referencia y expresion_usuario.") ∧
    (∀ (refS e : String) (ch : String → Option Fecha) (conf : Bool)
        (tr : Option String) (resp : RespuestaModelo),
      refS ≠ "" → e ≠ "" → esExpresionTemporalClara e = true →
      fromISO refS = .invalido →
      parseFecha (some refS) (some e) ch conf tr resp =
        .malaPeticion "Referencia inválida.") ∧
    (∀ (refS e : String) (refF : Fecha) (ch : String → Option Fecha)
        (tr : Option String) (resp : RespuestaModelo),
      refS ≠ "" → e ≠ "" → esExpresionTemporalClara e = true →
      fromISO refS = .valido refF → preprocesarExpresion e refF = none →
      detectarIdioma e = "es" → ch e = none →
      parseFecha (some refS) (some e) ch false tr resp =
        .okError "No se pudo interpretar la fecha.") := by
  refine ⟨?_, ?_, ?_⟩
  · intro referencia expresion ch conf tr resp h
    simp [parseFecha, h]
  · intro refS e ch conf tr resp href he hcl hiso
    have h1 : esFalsy (some refS) = false := by simp [esFalsy, href]
    have h2 : esFalsy (some e) = false := by simp [esFalsy, he]
    simp [parseFecha, h1, h2, valorDe, hcl, hiso]
  · intro refS e refF ch tr resp href he hcl hiso hpre hidio hch
    have h1 : esFalsy (some refS) = false := by simp [esFalsy, href]
    have h2 : esFalsy (some e) = false := by simp [esFalsy, he]
    simp [parseFecha, h1, h2, valorDe, hcl, hiso, hpre, hidio, hch, parsearConOpenAIM]

/-- Witness for the amended C8, one concrete request per conjunct. -/
theorem c8_errores_testigo :
    parseFecha none (some "mañana") (fun _ => none) false none .fallo =
      .malaPeticion "Faltan parámetros requeridos: referencia y expresion_usuario." ∧
    parseFecha (some "fecha-mala") (some "mañana") (fun _ => none) false none .fallo =
      .malaPeticion "Referencia inválida." ∧
    parseFecha (some "2025-11-04T09:00:00+01:00") (some "9999") (fun _ => none)
      false none .fallo = .okError "No se pudo interpretar la fecha." :=
  ⟨c8_errores_enmendada.1 none (some "mañana") (fun _ => none) false none .fallo
      (by decide),
    c8_errores_enmendada.2.1 "fecha-mala" "mañana" (fun _ => none) false none .fallo
      (by decide) (by decide) (by decide) (by decide),
    c8_errores_enmendada.2.2 "2025-11-04T09:00:00+01:00" "9999" ⟨2025, 11, 4, 9, 0, 0, 0⟩
      (fun _ => none) none .fallo (by decide) (by decide) (by decide) (by decide)
      (by decide) (by decide) rfl⟩

/-! ## Unvalidated preprocessor hour: C10 -/

/-- C10. The hour captured by "pasado mañana a las H" is used without range
validation: H = 99 makes luxon's `set` produce an invalid DateTime, and the
endpoint still answers HTTP 200 rendering "Invalid DateTime" strings and a
null `iso_datetime` instead of a 400, a sentinel, or an error flag. -/
theorem c10_hora_sin_rango :
    matchPasadoMananaHora "pasado mañana a las 99" = some 99 ∧
    estableceHMS (plusDias ⟨2025, 11, 4, 9, 0, 0, 0⟩ 2) 99 0 0 0 = .invalido ∧
    parseFecha (some "2025-11-04T09:00:00+01:00") (some "pasado mañana a las 99")
      (fun _ => none) false none .fallo =
    .okRespuesta
      { fecha_resuelta := "Invalid DateTime", dia_semana := "Invalid DateTime",
        hora := "Invalid DateTime", iso_datetime := none,
        es_finde := false, es_pasado := false } := by
  decide

/-! ## Round-trip: C9 -/

theorem leeDigito_digitChar : ∀ k : Nat, k < 10 → leeDigito (Nat.digitChar k) = some k := by
  decide

theorem lee2_pad2 (n : Nat) (h : n < 100) (r : List Char) :
    lee2 (pad2 n ++ r) = some (n, r) := by
  have d1 := leeDigito_digitChar (n / 10 % 10) (Nat.mod_lt _ (by norm_num))
  have d2 := leeDigito_digitChar (n % 10) (Nat.mod_lt _ (by norm_num))
  simp [pad2, lee2, d1, d2]
  omega

theorem lee3_pad3 (n : Nat) (h : n < 1000) (r : List Char) :
    lee3 (pad3 n ++ r) = some (n, r) := by
  have d1 := leeDigito_digitChar (n / 100 % 10) (Nat.mod_lt _ (by norm_num))
  have d2 := leeDigito_digitChar (n / 10 % 10) (Nat.mod_lt _ (by norm_num))
  have d3 := leeDigito_digitChar (n % 10) (Nat.mod_lt _ (by norm_num))
  simp [pad3, lee3, d1, d2, d3]
  omega

theorem lee4_pad4 (n : Nat) (h : n < 10000) (r : List Char) :
    lee4 (pad4 n ++ r) = some (n, r) := by
  have d1 := leeDigito_digitChar (n / 1000 % 10) (Nat.mod_lt _ (by norm_num))
  have d2 := leeDigito_digitChar (n / 100 % 10) (Nat.mod_lt _ (by norm_num))
  have d3 := leeDigito_digitChar (n / 10 % 10) (Nat.mod_lt _ (by norm_num))
  have d4 := leeDigito_digitChar (n % 10) (Nat.mod_lt _ (by norm_num))
  simp [pad4, lee4, d1, d2, d3, d4]
  omega

theorem espera_cons (c : Char) (r : List Char) : espera c (c :: r) = some r := by
  simp [espera]

theorem leeMsFinal_punto (r : List Char) :
    leeMsFinal ('.' :: r) = (do
      let (ms, r2) ← lee3 r
      if r2 = "+01:00".data ∨ r2 = [] then pure ms else none) := rfl

theorem analizaISO_isoFecha (f : Fecha) (h : fechaValida f = true) :
    analizaISO (isoFecha f).data = some f := by
  simp only [fechaValida, Bool.and_eq_true, decide_eq_true_eq] at h
  obtain ⟨⟨⟨⟨⟨⟨⟨⟨⟨h1, h2⟩, h3⟩, h4⟩, h5⟩, h6⟩, h7⟩, h8⟩, h9⟩, h10⟩ := h
  have hmes := diasEnMes_le f.year f.month
  have hdatos : (isoFecha f).data =
      pad4 f.year ++ '-' :: (pad2 f.month ++ '-' :: (pad2 f.day ++
        'T' :: (pad2 f.hour ++ ':' :: (pad2 f.minute ++ ':' :: (pad2 f.second ++
          '.' :: (pad3 f.ms ++ "+01:00".data)))))) := rfl
  rw [hdatos]
  simp only [analizaISO, Option.bind_eq_bind]
  rw [lee4_pad4 f.year (by omega)]
  simp only [Option.some_bind]
  rw [espera_cons]
  simp only [Option.some_bind]
  rw [lee2_pad2 f.month (by omega)]
  simp only [Option.some_bind]
  rw [espera_cons]
  simp only [Option.some_bind]
  rw [lee2_pad2 f.day (by omega)]
  simp only [Option.some_bind]
  rw [espera_cons]
  simp only [Option.some_bind]
  rw [lee2_pad2 f.hour (by omega)]
  simp only [Option.some_bind]
  rw [espera_cons]
  simp only [Option.some_bind]
  rw [lee2_pad2 f.minute (by omega)]
  simp only [Option.some_bind]
  rw [espera_cons]
  simp only [Option.some_bind]
  rw [lee2_pad2 f.second (by omega)]
  simp only [Option.some_bind]
  rw [leeMsFinal_punto]
  simp only [Option.bind_eq_bind]
  rw [lee3_pad3 f.ms (by omega)]
  simp only [Option.some_bind]
  rw [if_pos (Or.inl trivial)]
  rfl

/-- C9. Round-trip: re-parsing a Resolved response's emitted `iso_datetime`
in the same (fixed-offset) zone recovers the same instant, so re-formatting
it reproduces `fecha_resuelta` ("yyyy-MM-dd") and `hora` ("HH:mm") exactly. -/
theorem c9_ida_y_vuelta (f : Fecha) (h : fechaValida f = true) :
    fromISO (isoFecha f) = .valido f ∧
    formatoFechaDT (fromISO (isoFecha f)) = formatoFecha f ∧
    formatoHoraDT (fromISO (isoFecha f)) = formatoHora f := by
  have h1 : fromISO (isoFecha f) = .valido f := by
    simp [fromISO, analizaISO_isoFecha f h, h]
  refine ⟨h1, ?_, ?_⟩ <;> rw [h1] <;> rfl

/-- Witness for C9 at the C5 scenario's resolved instant. -/
theorem c9_ida_y_vuelta_testigo :
    fromISO (isoFecha ⟨2025, 11, 7, 19, 0, 0, 0⟩) = .valido ⟨2025, 11, 7, 19, 0, 0, 0⟩ ∧
    formatoFechaDT (fromISO (isoFecha ⟨2025, 11, 7, 19, 0, 0, 0⟩)) =
      formatoFecha ⟨2025, 11, 7, 19, 0, 0, 0⟩ ∧
    formatoHoraDT (fromISO (isoFecha ⟨2025, 11, 7, 19, 0, 0, 0⟩)) =
      formatoHora ⟨2025, 11, 7, 19, 0, 0, 0⟩ :=
  c9_ida_y_vuelta ⟨2025, 11, 7, 19, 0, 0, 0⟩ (by decide)

end RBP
